import Mathlib

/-
Verification of the grouping/aggregation engine of `statistics.py`
(gerrit-scripts): the column classes `StatisticsColumn`,
`StatisticsAuthorNameColumn`, `StatisticsCountColumn`,
`StatisticsDistinctCountColumn`, and the `Statistics` aggregator with its
operations `process_records`, `_get_group`, `_find_column_index` and
`print_stats`.

Modelling conventions:
- Python values flowing through the engine are modelled by `PyVal`:
  `None`, integers, unicode strings (Python booleans are identified with the
  integers 0/1, exactly as Python's `==`, `+` and truthiness do), and sets
  of hashable scalars (`Finset Scalar`, whose propositional equality is
  Python's extensional set equality `==`).
- Python truthiness (`if value:`) is `pyTruthy`.
- `base + value` in `StatisticsColumn.accumulate` is `pyAdd`; it is defined
  on int+int and str+str, the only combinations a column of this repository
  ever adds; any other combination raises TypeError in Python and is mapped
  to the inert junk value `PyVal.scalar Scalar.vnone`.
- The dictionary `Statistics._groups` is modelled as an association list in
  insertion order: assignment to an existing key keeps its position, a new
  key is appended.  (CPython's dict iteration order is unspecified; the
  insertion-order model is the standard deterministic reading.)
- Mutation is modelled by explicit state passing; `copy.deepcopy` of the
  default-value list is the identity on immutable values, which is exactly
  value copying.
- `print_stats` returns the text written to `fp`; Python exceptions
  (`ValueError` from `_find_column_index` and from `max([])`) become
  `Except.error`.
- List indexing `group[index]` / `x[index]` always happens in range in the
  engine (the slot invariant); out-of-range reads are given the junk
  default `PyVal.scalar Scalar.vnone` (Python would raise IndexError).
-/

/-- Hashable scalar values: the values that records contribute and that can
be stored inside a Python `set`.  Python booleans are represented as the
integers 0/1. -/
inductive Scalar where
  | vnone : Scalar
  | vint (n : Int) : Scalar
  | vstr (s : String) : Scalar
deriving DecidableEq, Repr

/-- A Python value handled by the statistics engine: a scalar or a set of
scalars (the accumulator state of `StatisticsDistinctCountColumn`). -/
inductive PyVal where
  | scalar (v : Scalar) : PyVal
  | vset (s : Finset Scalar) : PyVal
deriving DecidableEq

/-- The junk value standing in for Python runtime errors / unreachable
reads (see the conventions above). -/
def junkVal : PyVal := PyVal.scalar Scalar.vnone

/-- Python truthiness of a value: `None`, `0`, `u''` and `set()` are falsy,
everything else is truthy. -/
def pyTruthy : PyVal → Bool
  | PyVal.scalar Scalar.vnone => false
  | PyVal.scalar (Scalar.vint n) => decide (n ≠ 0)
  | PyVal.scalar (Scalar.vstr s) => decide (s ≠ "")
  | PyVal.vset s => decide (s ≠ ∅)

/-- Python `+` as used by `StatisticsColumn.accumulate`: integer addition
and string concatenation; every other combination raises TypeError in
Python (no column of this repository produces one) and is mapped to junk. -/
def pyAdd : PyVal → PyVal → PyVal
  | PyVal.scalar (Scalar.vint a), PyVal.scalar (Scalar.vint b) =>
      PyVal.scalar (Scalar.vint (a + b))
  | PyVal.scalar (Scalar.vstr a), PyVal.scalar (Scalar.vstr b) =>
      PyVal.scalar (Scalar.vstr (a ++ b))
  | _, _ => junkVal

/-- Python `unicode(value)` on the values the engine renders: decimal for
integers, the string itself for strings, `None` for `None`.  (The base
class never renders a set: set-valued states are rendered by
`StatisticsDistinctCountColumn.to_string`, which overrides it.) -/
def pyToString : PyVal → String
  | PyVal.scalar Scalar.vnone => "None"
  | PyVal.scalar (Scalar.vint n) => toString n
  | PyVal.scalar (Scalar.vstr s) => s
  | PyVal.vset _ => "set()"

/-- Python `<` on the values `print_stats` sorts by.  Same-type scalars
compare by value (integers numerically, strings lexicographically), sets by
proper inclusion; Python 2 orders values of different types by type name,
giving `None` < int < set < unicode. -/
def pyLtB : PyVal → PyVal → Bool
  | PyVal.scalar Scalar.vnone, PyVal.scalar Scalar.vnone => false
  | PyVal.scalar Scalar.vnone, _ => true
  | PyVal.scalar (Scalar.vint _), PyVal.scalar Scalar.vnone => false
  | PyVal.scalar (Scalar.vint a), PyVal.scalar (Scalar.vint b) => decide (a < b)
  | PyVal.scalar (Scalar.vint _), _ => true
  | PyVal.scalar (Scalar.vstr s), PyVal.scalar (Scalar.vstr t) => decide (s < t)
  | PyVal.scalar (Scalar.vstr _), _ => false
  | PyVal.vset a, PyVal.vset b => decide (a ⊂ b)
  | PyVal.vset _, PyVal.scalar (Scalar.vstr _) => true
  | PyVal.vset _, _ => false

/-- The column interface of `statistics.py`: the base class
`StatisticsColumn` bundles a display name with the five behaviours its
subclasses override (`default_value`, `get_value`, `to_sortable`,
`to_string`, `accumulate`).  `R` is the record type supplied by the record
source. -/
structure StatisticsColumn (R : Type) where
  name : String
  default_value : PyVal
  get_value : R → PyVal
  to_sortable : PyVal → PyVal
  to_string : PyVal → String
  accumulate : PyVal → PyVal → PyVal

/-- The behaviours of the base class `StatisticsColumn`: `default_value`
is `0`, `to_sortable` the identity, `to_string` is `unicode`, `accumulate`
is `base + value`.  The base class has no `get_value`; each subclass
supplies one. -/
def baseColumn {R : Type} (name : String) (get_value : R → PyVal) :
    StatisticsColumn R where
  name := name
  default_value := PyVal.scalar (Scalar.vint 0)
  get_value := get_value
  to_sortable := fun v => v
  to_string := pyToString
  accumulate := pyAdd

/-- `StatisticsAuthorNameColumn`: `get_value` returns
`get_author(record).fullname`; `fullname` is the composed function
record → author full name.  Everything else is inherited from the base
class. -/
def StatisticsAuthorNameColumn {R : Type} (name : String)
    (fullname : R → String) : StatisticsColumn R :=
  baseColumn name (fun r => PyVal.scalar (Scalar.vstr (fullname r)))

/-- `StatisticsCountColumn`: `get_value` is 1 when the predicate is truthy
and 0 otherwise; accumulation (inherited) is integer addition from the
default 0. -/
def StatisticsCountColumn {R : Type} (name : String) (predicate : R → PyVal) :
    StatisticsColumn R :=
  baseColumn name (fun r => if pyTruthy (predicate r) then PyVal.scalar (Scalar.vint 1)
    else PyVal.scalar (Scalar.vint 0))

/-- `StatisticsDistinctCountColumn`: `default_value` is the empty set,
`get_value` returns the predicate's value unchanged, `to_sortable` and
`to_string` report the set's cardinality (`len(value)`), and `accumulate`
adds the value to the set when it is truthy (`if value: base.add(value)`).
Junk cases (a `len` or `add` on a value Python would reject at runtime)
leave the input unchanged / return it as is; no column use in this
repository reaches them. -/
def StatisticsDistinctCountColumn {R : Type} (name : String)
    (predicate : R → PyVal) : StatisticsColumn R where
  name := name
  default_value := PyVal.vset ∅
  get_value := predicate
  to_sortable := fun v =>
    match v with
    | PyVal.vset s => PyVal.scalar (Scalar.vint s.card)
    | x => x
  to_string := fun v =>
    match v with
    | PyVal.vset s => toString s.card
    | x => pyToString x
  accumulate := fun base v =>
    match base with
    | PyVal.vset s =>
        if pyTruthy v then
          match v with
          | PyVal.scalar a => PyVal.vset (insert a s)
          | PyVal.vset _ => base
        else base
    | _ => base

/-- A group key: the tuple of group-column values computed from a record
(`tuple(column.get_value(record) for column in self._group_columns)`). -/
abbrev GroupKey := List PyVal

/-- A group row: the parallel vector of per-column accumulator states. -/
abbrev Row := List PyVal

/-- Lookup in the `_groups` dictionary (`self._groups.get(key)`). -/
def lookupRow (G : List (GroupKey × Row)) (k : GroupKey) : Option Row :=
  (G.find? (fun kv => decide (kv.1 = k))).map (fun kv => kv.2)

/-- Assignment `self._groups[key] = row` on the insertion-ordered
dictionary model: an existing key keeps its position, a new key is
appended. -/
def dictSet (G : List (GroupKey × Row)) (k : GroupKey) (v : Row) :
    List (GroupKey × Row) :=
  if G.any (fun kv => decide (kv.1 = k)) then
    G.map (fun kv => if kv.1 = k then (k, v) else kv)
  else G ++ [(k, v)]

/-- The `Statistics` aggregator state: group-key columns (fixed at
construction), accumulated columns and their default values in
registration order, and the group dictionary. -/
structure Statistics (R : Type) where
  group_columns : List (StatisticsColumn R)
  columns : List (StatisticsColumn R)
  init_values : List PyVal
  groups : List (GroupKey × Row)

/-- `Statistics.__init__(group_columns)`. -/
def Statistics.init {R : Type} (group_columns : List (StatisticsColumn R)) :
    Statistics R where
  group_columns := group_columns
  columns := []
  init_values := []
  groups := []

/-- The group key of a record. -/
def Statistics.group_key {R : Type} (s : Statistics R) (r : R) : GroupKey :=
  s.group_columns.map (fun c => c.get_value r)

/-- The per-column loop of `process_records`: for each newly-passed column
at its slot `index` (`enumerate(columns, existing_columns)`) set
`group[index] = column.accumulate(group[index], column.get_value(record))`. -/
def accumColumns {R : Type} : List (StatisticsColumn R) → R → Nat → Row → Row
  | [], _, _, row => row
  | c :: cs, r, i, row =>
      accumColumns cs r (i + 1)
        (row.set i (c.accumulate (row.getD i junkVal) (c.get_value r)))

/-- The row `_get_group` hands back for a key: the stored row when the key
is present with a non-empty row; a fresh deep copy of `_init_values` when
the key is absent, and also when the stored row is falsy (Python's
`if not group:` — an empty list). -/
def rowOf (G : List (GroupKey × Row)) (key : GroupKey) (init : Row) : Row :=
  match lookupRow G key with
  | Option.some g => if g = [] then init else g
  | Option.none => init

/-- One iteration of the `for record in records` loop of
`process_records`, acting on the `_groups` dictionary: compute the group
key, fetch or create the row (`_get_group`, whose dictionary store is the
final `dictSet` — the in-place mutations reach the dictionary through the
alias), and accumulate the new columns at slots `off`, `off+1`, ....
`gcols` are the group-key columns, `init` the current `_init_values`. -/
def gstep {R : Type} (gcols : List (StatisticsColumn R)) (init : Row)
    (cols : List (StatisticsColumn R)) (off : Nat)
    (G : List (GroupKey × Row)) (r : R) : List (GroupKey × Row) :=
  let key := gcols.map (fun c => c.get_value r)
  dictSet G key (accumColumns cols r off (rowOf G key init))

/-- `Statistics.process_records(records, columns)`: remember the number of
existing columns, register the new columns and their default values,
extend every existing group row with (a deep copy of) the new defaults,
then run the record loop (`gstep`) over `records`. -/
def Statistics.process_records {R : Type} (s : Statistics R)
    (records : List R) (cols : List (StatisticsColumn R)) : Statistics R :=
  let off := s.columns.length
  let newInit := cols.map (fun c => c.default_value)
  let init2 := s.init_values ++ newInit
  { s with
    columns := s.columns ++ cols,
    init_values := init2,
    groups := records.foldl (gstep s.group_columns init2 cols off)
      (s.groups.map (fun kv => (kv.1, kv.2 ++ newInit))) }

/-- `Statistics._find_column_index(column_name)`: first index among the
group-key columns, then among the accumulated columns offset by
`len(self._group_columns)`; an unknown name raises ValueError. -/
def Statistics.find_column_index {R : Type} (s : Statistics R)
    (name : String) : Except String Nat :=
  match s.group_columns.findIdx? (fun c => c.name == name) with
  | Option.some i => Except.ok i
  | Option.none =>
      match s.columns.findIdx? (fun c => c.name == name) with
      | Option.some i => Except.ok (s.group_columns.length + i)
      | Option.none => Except.error ("Unknown column name: " ++ name)

/-- The list-comprehension filter of `print_stats`: keep a group row iff
some accumulated column's state differs from that column's default value
(group-key columns take no part). -/
def rowKeptAux {R : Type} (value : Row) : Nat → List (StatisticsColumn R) → Bool
  | _, [] => false
  | i, c :: cs =>
      decide (value.getD i junkVal ≠ c.default_value) || rowKeptAux value (i + 1) cs

/-- `any([value[i] != column.default_value for i, column in
enumerate(self._columns)])`. -/
def rowKept {R : Type} (cols : List (StatisticsColumn R)) (value : Row) : Bool :=
  rowKeptAux value 0 cols

/-- The `lines` built by `print_stats` before sorting: for each surviving
group, the key tuple concatenated with the state vector, in dictionary
order. -/
def Statistics.lines {R : Type} (s : Statistics R) : List Row :=
  (s.groups.filter (fun kv => rowKept s.columns kv.2)).map
    (fun kv => kv.1 ++ kv.2)

/-- Stable insertion of `x` into a descending-sorted list: `x` is placed
before the first element whose key is not greater than the key of `x`, so
among tied keys earlier elements stay first. -/
def sortInsert {A : Type} (key : A → PyVal) (x : A) : List A → List A
  | [] => [x]
  | y :: ys =>
      if pyLtB (key x) (key y) then y :: sortInsert key x ys else x :: y :: ys

/-- Stable descending sort by a key, modelling
`lines.sort(key=..., reverse=True)` (CPython's sort is stable, and
`reverse=True` flips comparisons without reversing ties). -/
def sortDesc {A : Type} (key : A → PyVal) : List A → List A
  | [] => []
  | x :: xs => sortInsert key x (sortDesc key xs)

/-- The sort phase of `print_stats`: `if sort_by:` — so `None` and the
empty string skip sorting — then resolve the column name and sort the
surviving rows descending by that column's `to_sortable` projection of the
value at the resolved index. -/
def Statistics.sortedLines {R : Type} (s : Statistics R)
    (sort_by : Option String) : Except String (List Row) :=
  match sort_by with
  | Option.none => Except.ok s.lines
  | Option.some name =>
      if name = "" then Except.ok s.lines
      else
        match s.find_column_index name with
        | Except.error e => Except.error e
        | Except.ok i =>
            let column := (s.group_columns ++ s.columns).getD i
              (baseColumn "" (fun _ => junkVal))
            Except.ok (sortDesc
              (fun x => column.to_sortable (x.getD i junkVal)) s.lines)

/-- Python `max` over a list of naturals: raises ValueError on an empty
list. -/
def pyMax : List Nat → Except String Nat
  | [] => Except.error "max() arg is an empty sequence"
  | x :: xs => Except.ok (xs.foldl max x)

/-- The width loop of `print_stats`: for each column (at its index in
`all_columns`), the maximum of the title length and of
`max([len(column.to_string(x[index])) for x in lines])`. -/
def computeWidths {R : Type} : List (StatisticsColumn R) → Nat → List Row →
    Except String (List Nat)
  | [], _, _ => Except.ok []
  | c :: cs, i, lines2 =>
      match pyMax (lines2.map (fun x => (c.to_string (x.getD i junkVal)).length)) with
      | Except.error e => Except.error e
      | Except.ok m =>
          match computeWidths cs (i + 1) lines2 with
          | Except.error e => Except.error e
          | Except.ok ws => Except.ok (max c.name.length m :: ws)

/-- One padded cell `u'{0:{width}} '.format(elem, width=width)`:
left-justify to the width, then one separating space. -/
def padCell (s : String) (w : Nat) : String :=
  s ++ String.mk (List.replicate (w - s.length) ' ') ++ " "

/-- One separator cell `u'{0:=^{width}} '.format('')`: `width` equals
signs, then one space. -/
def sepCell (w : Nat) : String :=
  String.mk (List.replicate w '=') ++ " "

/-- One rendered data row: `zip(line, all_columns, widths)` and a padded
cell of `column.to_string(elem)` for each triple, then a newline. -/
def renderLine {R : Type} : Row → List (StatisticsColumn R) → List Nat → String
  | e :: es, c :: cs, w :: ws => padCell (c.to_string e) w ++ renderLine es cs ws
  | _, _, _ => ""

/-- The text `print_stats` writes after the widths are known: the title
row, the `=` separator row, and one row per (filtered, sorted) line. -/
def renderTable {R : Type} (all_columns : List (StatisticsColumn R))
    (widths : List Nat) (lines2 : List Row) : String :=
  String.join (((all_columns.map (fun c => c.name)).zip widths).map
      (fun tw => padCell tw.1 tw.2)) ++ "\n"
    ++ String.join (widths.map sepCell) ++ "\n"
    ++ String.join (lines2.map (fun line => renderLine line all_columns widths ++ "\n"))

/-- `Statistics.print_stats(fp, sort_by)`: build `lines`, sort them if
`sort_by` is truthy (unknown names raise), compute the per-column widths
(`max([])` raises on an empty `lines`), and return the text written to
`fp`. -/
def Statistics.print_stats {R : Type} (s : Statistics R)
    (sort_by : Option String) : Except String String :=
  let all_columns := s.group_columns ++ s.columns
  match s.sortedLines sort_by with
  | Except.error e => Except.error e
  | Except.ok lines2 =>
      match computeWidths all_columns 0 lines2 with
      | Except.error e => Except.error e
      | Except.ok widths => Except.ok (renderTable all_columns widths lines2)

/-- Scalar test: the sortable projections produced by the columns of this
repository (identity on int/str states, set cardinality) are scalars. -/
def isScalarB : PyVal → Bool
  | PyVal.scalar _ => true
  | PyVal.vset _ => false

/-- Key distinctness of the dictionary model: Python dict keys are unique. -/
def NoDupKeys (G : List (GroupKey × Row)) : Prop :=
  G.Pairwise (fun a b => a.1 ≠ b.1)

/-- The row-length part of the slot invariant of the aggregator, at the
dictionary level: every stored row has exactly as many slots as
`_init_values`. -/
def RowsLen (G : List (GroupKey × Row)) (init : Row) : Prop :=
  ∀ kv ∈ G, kv.2.length = init.length

/-- The slot invariant of the aggregator (spec section 3): `_init_values`
is the list of the registered columns' default values, and every group row
has exactly one slot per registered accumulated column. -/
def SlotInvariant {R : Type} (s : Statistics R) : Prop :=
  s.init_values = s.columns.map (fun c => c.default_value)
  ∧ ∀ kv ∈ s.groups, kv.2.length = s.columns.length

/-- A concrete record shape for instantiating the engine, mirroring the
flat records `gerrit-stats.py` feeds it: an author name, a change
identifier, and a timestamp-like field whose falsy values mean "no
contribution". -/
structure TestRecord where
  author : String
  change : Scalar
  stamp : Scalar
deriving DecidableEq

def trAuthor : TestRecord → String := fun r => r.author

def trStamp : TestRecord → PyVal := fun r => PyVal.scalar r.stamp

/-- The call-site pattern `lambda x: x.change if x.timestamp else None`. -/
def trChangeIfStamp : TestRecord → PyVal := fun r =>
  if pyTruthy (PyVal.scalar r.stamp) = true then PyVal.scalar r.change
  else PyVal.scalar Scalar.vnone

/-- The call-site pattern `lambda x: True` (Python `True` is the int 1). -/
def trTrue : TestRecord → PyVal := fun _ => PyVal.scalar (Scalar.vint 1)

def rAlice : TestRecord := ⟨"Alice", Scalar.vint 7, Scalar.vint 1⟩

def rBob : TestRecord := ⟨"Bob", Scalar.vint 8, Scalar.vint 1⟩

def rAlice2 : TestRecord := ⟨"Alice", Scalar.vint 7, Scalar.vint 2⟩

def rAliceNone : TestRecord := ⟨"Alice", Scalar.vint 7, Scalar.vnone⟩

def nameColumn : StatisticsColumn TestRecord :=
  StatisticsAuthorNameColumn "Name" trAuthor

def countColumnN : StatisticsColumn TestRecord :=
  StatisticsCountColumn "N" trTrue

theorem pyLtB_irrefl (a : PyVal) : pyLtB a a = false := by
  cases a with
  | scalar v =>
      cases v with
      | vnone => rfl
      | vint n => simp [pyLtB]
      | vstr s => simp [pyLtB]
  | vset s =>
      simp [pyLtB]
      exact ssubset_irrefl s

theorem pyLtB_asymm {a b : PyVal} (h : pyLtB a b = true) : pyLtB b a = false := by
  cases a with
  | scalar va =>
      cases b with
      | scalar vb =>
          cases va <;> cases vb <;> simp_all [pyLtB] <;>
            first
              | omega
              | exact le_of_lt h
      | vset t => cases va <;> simp_all [pyLtB]
  | vset s =>
      cases b with
      | scalar vb => cases vb <;> simp_all [pyLtB]
      | vset t =>
          simp_all [pyLtB]
          intro hts
          exact absurd (h.trans hts) (ssubset_irrefl s)

theorem pyLtB_negtrans {a b c : PyVal} (ha : isScalarB a = true)
    (hb : isScalarB b = true) (hc : isScalarB c = true)
    (hab : pyLtB a b = false) (hbc : pyLtB b c = false) :
    pyLtB a c = false := by
  cases a with
  | vset s => simp [isScalarB] at ha
  | scalar va =>
  cases b with
  | vset s => simp [isScalarB] at hb
  | scalar vb =>
  cases c with
  | vset s => simp [isScalarB] at hc
  | scalar vc =>
  cases va <;> cases vb <;> cases vc <;> simp_all [pyLtB] <;>
    first
      | omega
      | exact le_trans hbc hab

theorem getD_set_ne {A : Type} (l : List A) {i j : Nat} (h : i ≠ j)
    (a d : A) : (l.set i a).getD j d = l.getD j d := by
  simp [List.getD_eq_getElem?_getD, List.getElem?_set_ne h]

theorem getD_set_self {A : Type} (l : List A) {i : Nat} (h : i < l.length)
    (a d : A) : (l.set i a).getD i d = a := by
  simp [List.getD_eq_getElem?_getD, List.getElem?_set_self, h]

theorem lookupRow_eq_none {G : List (GroupKey × Row)} {k : GroupKey} :
    lookupRow G k = Option.none ↔ ∀ e ∈ G, e.1 ≠ k := by
  unfold lookupRow
  rw [Option.map_eq_none', List.find?_eq_none]
  simp

theorem lookupRow_mem {G : List (GroupKey × Row)} {k : GroupKey} {g : Row}
    (h : lookupRow G k = Option.some g) : (k, g) ∈ G := by
  unfold lookupRow at h
  rcases Option.map_eq_some'.mp h with ⟨kv, hfind, hsnd⟩
  have hk : kv.1 = k := by
    have := List.find?_some hfind
    exact of_decide_eq_true this
  have hmem := List.mem_of_find?_eq_some hfind
  have : kv = (k, g) := by
    cases kv
    simp at hk hsnd
    rw [hk, hsnd]
  rw [this] at hmem
  exact hmem

theorem lookupRow_eq_some_of_mem {G : List (GroupKey × Row)} {k : GroupKey}
    {g : Row} (hnd : NoDupKeys G) (hmem : (k, g) ∈ G) :
    lookupRow G k = Option.some g := by
  induction G with
  | nil => cases hmem
  | cons kv G ih =>
      rcases List.pairwise_cons.mp hnd with ⟨hhead, htail⟩
      rcases List.mem_cons.mp hmem with heq | hmemtail
      · rw [← heq]
        unfold lookupRow
        simp [List.find?]
      · have hne : kv.1 ≠ k := hhead (k, g) hmemtail
        unfold lookupRow
        rw [List.find?_cons_of_neg]
        · exact ih htail hmemtail
        · simp [hne]

theorem nodupKeys_perm {G1 G2 : List (GroupKey × Row)} (h : G1.Perm G2) :
    NoDupKeys G1 ↔ NoDupKeys G2 :=
  h.pairwise_iff (fun hxy => fun he => hxy he.symm)

theorem lookupRow_perm {G1 G2 : List (GroupKey × Row)} (hnd : NoDupKeys G1)
    (h : G1.Perm G2) (k : GroupKey) : lookupRow G1 k = lookupRow G2 k := by
  have hnd2 : NoDupKeys G2 := (nodupKeys_perm h).mp hnd
  cases hval : lookupRow G1 k with
  | some g =>
      have := lookupRow_mem hval
      exact (lookupRow_eq_some_of_mem hnd2 (h.mem_iff.mp this)).symm
  | none =>
      have hall := lookupRow_eq_none.mp hval
      exact (lookupRow_eq_none.mpr (fun e he => hall e (h.mem_iff.mpr he))).symm

theorem any_key_perm {G1 G2 : List (GroupKey × Row)} (h : G1.Perm G2)
    (k : GroupKey) :
    G1.any (fun kv => decide (kv.1 = k)) = G2.any (fun kv => decide (kv.1 = k)) := by
  cases h1 : G1.any (fun kv => decide (kv.1 = k)) with
  | true =>
      rcases List.any_eq_true.mp h1 with ⟨e, he, hp⟩
      exact (List.any_eq_true.mpr ⟨e, h.mem_iff.mp he, hp⟩).symm
  | false =>
      cases h2 : G2.any (fun kv => decide (kv.1 = k)) with
      | true =>
          rcases List.any_eq_true.mp h2 with ⟨e, he, hp⟩
          rw [← h1]
          exact List.any_eq_true.mpr ⟨e, h.mem_iff.mpr he, hp⟩
      | false => rfl

theorem dictSet_perm {G1 G2 : List (GroupKey × Row)} (h : G1.Perm G2)
    (k : GroupKey) (v : Row) : (dictSet G1 k v).Perm (dictSet G2 k v) := by
  unfold dictSet
  rw [any_key_perm h k]
  cases G2.any (fun kv => decide (kv.1 = k)) with
  | true =>
      simp only [if_true]
      exact h.map _
  | false =>
      rw [if_neg (by simp)]
      exact h.append_right _

theorem mem_dictSet {G : List (GroupKey × Row)} {k : GroupKey} {v : Row}
    {e : GroupKey × Row} (h : e ∈ dictSet G k v) : e ∈ G ∨ e = (k, v) := by
  unfold dictSet at h
  by_cases hc : G.any (fun kv => decide (kv.1 = k)) = true
  · rw [if_pos hc] at h
    rcases List.mem_map.mp h with ⟨kv, hkv, heq⟩
    by_cases hk : kv.1 = k
    · right
      rw [← heq, if_pos hk]
    · left
      rw [← heq, if_neg hk]
      exact hkv
  · rw [if_neg hc] at h
    rcases List.mem_append.mp h with hmem | hmem
    · exact Or.inl hmem
    · exact Or.inr (List.mem_singleton.mp hmem)

theorem dictSet_nodup {G : List (GroupKey × Row)} (hnd : NoDupKeys G)
    (k : GroupKey) (v : Row) : NoDupKeys (dictSet G k v) := by
  unfold dictSet
  by_cases hc : G.any (fun kv => decide (kv.1 = k)) = true
  · rw [if_pos hc]
    unfold NoDupKeys
    rw [List.pairwise_map]
    apply hnd.imp_of_mem
    intro a b _ _ hab
    by_cases ha : a.1 = k
    · by_cases hb : b.1 = k
      · exact absurd (ha.trans hb.symm) hab
      · simp only [if_pos ha, if_neg hb]
        exact fun hh => hb hh.symm
    · by_cases hb : b.1 = k
      · simp only [if_neg ha, if_pos hb]
        exact ha
      · simp only [if_neg ha, if_neg hb]
        exact hab
  · rw [if_neg hc]
    have hnone : ∀ e ∈ G, e.1 ≠ k := by
      intro e he heq
      exact hc (List.any_eq_true.mpr ⟨e, he, by simp [heq]⟩)
    unfold NoDupKeys
    rw [List.pairwise_append]
    refine ⟨hnd, List.pairwise_singleton _ _, ?_⟩
    intro a ha b hb
    rw [List.mem_singleton.mp hb]
    exact hnone a ha

theorem find_replace_self (G : List (GroupKey × Row)) (k : GroupKey) (v : Row) :
    (G.map (fun kv => if kv.1 = k then (k, v) else kv)).find?
        (fun kv => decide (kv.1 = k))
      = (G.find? (fun kv => decide (kv.1 = k))).map (fun _ => (k, v)) := by
  induction G with
  | nil => rfl
  | cons a G ih =>
      by_cases ha : a.1 = k
      · simp only [List.map_cons, if_pos ha]
        rw [List.find?_cons_of_pos, List.find?_cons_of_pos] <;> simp [ha]
      · simp only [List.map_cons, if_neg ha]
        rw [List.find?_cons_of_neg, List.find?_cons_of_neg]
        · exact ih
        · simp [ha]
        · simp [ha]

theorem lookupRow_dictSet_self (G : List (GroupKey × Row)) (k : GroupKey)
    (v : Row) : lookupRow (dictSet G k v) k = Option.some v := by
  unfold dictSet
  by_cases hc : G.any (fun kv => decide (kv.1 = k)) = true
  · rw [if_pos hc]
    unfold lookupRow
    rw [find_replace_self]
    have hsome : (G.find? (fun kv => decide (kv.1 = k))).isSome = true := by
      rw [List.find?_isSome]
      rcases List.any_eq_true.mp hc with ⟨e, he, hp⟩
      exact ⟨e, he, hp⟩
    cases hfind : G.find? (fun kv => decide (kv.1 = k)) with
    | none => rw [hfind] at hsome; cases hsome
    | some kv => simp
  · rw [if_neg hc]
    unfold lookupRow
    rw [List.find?_append]
    have hnone : G.find? (fun kv => decide (kv.1 = k)) = Option.none := by
      rw [List.find?_eq_none]
      intro e he hp
      exact hc (List.any_eq_true.mpr ⟨e, he, hp⟩)
    rw [hnone]
    simp [List.find?]

theorem lookupRow_dictSet_ne (G : List (GroupKey × Row)) {k k2 : GroupKey}
    (h : k2 ≠ k) (v : Row) : lookupRow (dictSet G k v) k2 = lookupRow G k2 := by
  unfold dictSet
  by_cases hc : G.any (fun kv => decide (kv.1 = k)) = true
  · rw [if_pos hc]
    unfold lookupRow
    congr 1
    clear hc
    induction G with
    | nil => rfl
    | cons a G ih =>
        by_cases ha : a.1 = k
        · simp only [List.map_cons, if_pos ha]
          rw [List.find?_cons_of_neg, List.find?_cons_of_neg]
          · exact ih
          · simp [ha]
            exact fun hh => absurd hh.symm h
          · simp
            exact fun hh => absurd hh.symm h
        · simp only [List.map_cons, if_neg ha]
          by_cases ha2 : a.1 = k2
          · rw [List.find?_cons_of_pos, List.find?_cons_of_pos] <;> simp [ha2]
          · rw [List.find?_cons_of_neg, List.find?_cons_of_neg]
            · exact ih
            · simp [ha2]
            · simp [ha2]
  · rw [if_neg hc]
    unfold lookupRow
    rw [List.find?_append]
    have : List.find? (fun kv => decide (kv.1 = k2)) [(k, v)] = Option.none := by
      rw [List.find?_eq_none]
      intro x hx
      rw [List.mem_singleton.mp hx]
      simp
      exact fun hh => h hh.symm
    rw [this]
    cases List.find? (fun kv => decide (kv.1 = k2)) G <;> rfl

theorem any_key_dictSet_ne (G : List (GroupKey × Row)) {k k2 : GroupKey}
    (h : k2 ≠ k) (v : Row) :
    (dictSet G k v).any (fun kv => decide (kv.1 = k2))
      = G.any (fun kv => decide (kv.1 = k2)) := by
  unfold dictSet
  by_cases hc : G.any (fun kv => decide (kv.1 = k)) = true
  · rw [if_pos hc, List.any_map]
    clear hc
    induction G with
    | nil => rfl
    | cons a G ih =>
        simp only [List.any_cons, ih]
        congr 1
        by_cases ha : a.1 = k
        · simp [Function.comp, ha]
        · simp [Function.comp, ha]
  · rw [if_neg hc, List.any_append]
    have : [(k, v)].any (fun kv => decide (kv.1 = k2)) = false := by
      simp
      exact fun hh => absurd hh.symm h
    rw [this, Bool.or_false]

theorem any_key_of_mem {G : List (GroupKey × Row)} {k : GroupKey}
    {g : Row} (h : (k, g) ∈ G) :
    G.any (fun kv => decide (kv.1 = k)) = true :=
  List.any_eq_true.mpr ⟨(k, g), h, by simp⟩

theorem dictSet_overwrite (G : List (GroupKey × Row)) (k : GroupKey)
    (v w : Row) : dictSet (dictSet G k v) k w = dictSet G k w := by
  have hmemkv : (k, v) ∈ dictSet G k v :=
    lookupRow_mem (lookupRow_dictSet_self G k v)
  have hc2 : (dictSet G k v).any (fun kv => decide (kv.1 = k)) = true :=
    any_key_of_mem hmemkv
  by_cases hc : G.any (fun kv => decide (kv.1 = k)) = true
  · have hinner : dictSet G k v
        = G.map (fun kv => if kv.1 = k then (k, v) else kv) := by
      unfold dictSet
      rw [if_pos hc]
    rw [hinner] at hc2
    conv_lhs => rw [hinner]
    unfold dictSet
    rw [if_pos hc2, if_pos hc, List.map_map]
    apply List.map_congr_left
    intro a _
    by_cases ha : a.1 = k <;> simp [Function.comp, ha]
  · have hinner : dictSet G k v = G ++ [(k, v)] := by
      unfold dictSet
      rw [if_neg hc]
    rw [hinner] at hc2
    conv_lhs => rw [hinner]
    unfold dictSet
    rw [if_pos hc2, if_neg hc, List.map_append]
    have hmapid : G.map (fun kv => if kv.1 = k then (k, w) else kv) = G := by
      have : ∀ a ∈ G, (if a.1 = k then (k, w) else a) = a := by
        intro a ha
        have : a.1 ≠ k := by
          intro heq
          exact hc (List.any_eq_true.mpr ⟨a, ha, by simp [heq]⟩)
        rw [if_neg this]
      rw [List.map_congr_left this]
      exact List.map_id G
    rw [hmapid]
    simp

theorem dictSet_present_eq_map {G : List (GroupKey × Row)} {k : GroupKey}
    (hc : G.any (fun kv => decide (kv.1 = k)) = true) (v : Row) :
    dictSet G k v = G.map (fun kv => if kv.1 = k then (k, v) else kv) := by
  unfold dictSet
  rw [if_pos hc]

theorem dictSet_absent_eq_append {G : List (GroupKey × Row)} {k : GroupKey}
    (hc : ¬ G.any (fun kv => decide (kv.1 = k)) = true) (v : Row) :
    dictSet G k v = G ++ [(k, v)] := by
  unfold dictSet
  rw [if_neg hc]

theorem dictSet_comm_mixed {G : List (GroupKey × Row)} {ka kb : GroupKey}
    (hk : ka ≠ kb) (hca : G.any (fun kv => decide (kv.1 = ka)) = true)
    (hcb : ¬ G.any (fun kv => decide (kv.1 = kb)) = true) (v w : Row) :
    dictSet (dictSet G ka v) kb w = dictSet (dictSet G kb w) ka v := by
  have hcb2 : ¬ (dictSet G ka v).any (fun kv => decide (kv.1 = kb)) = true := by
    rw [any_key_dictSet_ne G (fun hh => hk hh.symm) v]
    exact hcb
  have hca2 : (dictSet G kb w).any (fun kv => decide (kv.1 = ka)) = true := by
    rw [any_key_dictSet_ne G hk w]
    exact hca
  rw [dictSet_absent_eq_append hcb2 w, dictSet_present_eq_map hca2 v,
    dictSet_present_eq_map hca v, dictSet_absent_eq_append hcb w,
    List.map_append]
  have : [(kb, w)].map (fun kv => if kv.1 = ka then (ka, v) else kv)
      = [(kb, w)] := by
    simp only [List.map_cons, List.map_nil]
    rw [if_neg]
    exact fun hh => hk hh.symm
  rw [this]

theorem dictSet_comm {G : List (GroupKey × Row)} {ka kb : GroupKey}
    (hk : ka ≠ kb) (v w : Row) :
    (dictSet (dictSet G ka v) kb w).Perm (dictSet (dictSet G kb w) ka v) := by
  by_cases hca : G.any (fun kv => decide (kv.1 = ka)) = true
  · by_cases hcb : G.any (fun kv => decide (kv.1 = kb)) = true
    · have hcb2 : (dictSet G ka v).any (fun kv => decide (kv.1 = kb)) = true := by
        rw [any_key_dictSet_ne G (fun hh => hk hh.symm) v]
        exact hcb
      have hca2 : (dictSet G kb w).any (fun kv => decide (kv.1 = ka)) = true := by
        rw [any_key_dictSet_ne G hk w]
        exact hca
      rw [dictSet_present_eq_map hca v] at hcb2 ⊢
      rw [dictSet_present_eq_map hcb w] at hca2 ⊢
      rw [dictSet_present_eq_map hcb2 w, dictSet_present_eq_map hca2 v,
        List.map_map, List.map_map]
      apply List.Perm.of_eq
      apply List.map_congr_left
      intro a _
      by_cases ha : a.1 = ka
      · simp [Function.comp, ha, hk, Ne.symm hk]
      · by_cases hb : a.1 = kb
        · simp [Function.comp, ha, hb, hk, Ne.symm hk]
        · simp [Function.comp, ha, hb]
    · exact List.Perm.of_eq (dictSet_comm_mixed hk hca hcb v w)
  · by_cases hcb : G.any (fun kv => decide (kv.1 = kb)) = true
    · exact List.Perm.of_eq (dictSet_comm_mixed (fun hh => hk hh.symm) hcb hca w v).symm
    · have hcb2 : ¬ (dictSet G ka v).any (fun kv => decide (kv.1 = kb)) = true := by
        rw [any_key_dictSet_ne G (fun hh => hk hh.symm) v]
        exact hcb
      have hca2 : ¬ (dictSet G kb w).any (fun kv => decide (kv.1 = ka)) = true := by
        rw [any_key_dictSet_ne G hk w]
        exact hca
      rw [dictSet_absent_eq_append hca v] at hcb2 ⊢
      rw [dictSet_absent_eq_append hcb w] at hca2 ⊢
      rw [dictSet_absent_eq_append hcb2 w, dictSet_absent_eq_append hca2 v,
        List.append_assoc, List.append_assoc]
      apply List.Perm.append_left
      simp only [List.singleton_append]
      exact List.Perm.swap (kb, w) (ka, v) []

theorem accumColumns_length {R : Type} (cols : List (StatisticsColumn R))
    (r : R) : ∀ (i : Nat) (row : Row),
    (accumColumns cols r i row).length = row.length := by
  induction cols with
  | nil => intro i row; rfl
  | cons c cs ih =>
      intro i row
      unfold accumColumns
      rw [ih, List.length_set]

theorem accumColumns_nil_row {R : Type} (cols : List (StatisticsColumn R))
    (r : R) : ∀ (i : Nat), accumColumns cols r i [] = [] := by
  induction cols with
  | nil => intro i; rfl
  | cons c cs ih =>
      intro i
      unfold accumColumns
      rw [List.set_eq_of_length_le (by simp)]
      exact ih (i + 1)

theorem accumColumns_getD_lt {R : Type} (cols : List (StatisticsColumn R))
    (r : R) : ∀ (i j : Nat) (row : Row) (d : PyVal), j < i →
    (accumColumns cols r i row).getD j d = row.getD j d := by
  induction cols with
  | nil => intro i j row d _; rfl
  | cons c cs ih =>
      intro i j row d hji
      unfold accumColumns
      rw [ih (i + 1) j _ d (Nat.lt_succ_of_lt hji)]
      exact getD_set_ne row (Nat.ne_of_gt hji) _ d

theorem accumColumns_set_lt {R : Type} (cols : List (StatisticsColumn R))
    (r : R) : ∀ (i j : Nat) (row : Row) (a : PyVal), j < i →
    accumColumns cols r i (row.set j a) = (accumColumns cols r i row).set j a := by
  induction cols with
  | nil => intro i j row a _; rfl
  | cons c cs ih =>
      intro i j row a hji
      unfold accumColumns
      rw [getD_set_ne row (Nat.ne_of_lt hji),
        List.set_comm a _ row (Nat.ne_of_lt hji),
        ih (i + 1) j _ _ (Nat.lt_succ_of_lt hji)]

theorem accumColumns_push_set {R : Type} (cols : List (StatisticsColumn R))
    (r : R) (c : StatisticsColumn R) (r2 : R) (i : Nat) (row : Row) :
    accumColumns cols r (i + 1)
        (row.set i (c.accumulate (row.getD i junkVal) (c.get_value r2)))
      = (accumColumns cols r (i + 1) row).set i
          (c.accumulate ((accumColumns cols r (i + 1) row).getD i junkVal)
            (c.get_value r2)) := by
  rw [accumColumns_set_lt cols r (i + 1) i row _ (Nat.lt_succ_self i),
    accumColumns_getD_lt cols r (i + 1) i row junkVal (Nat.lt_succ_self i)]

theorem set_step_comm {R : Type} (c : StatisticsColumn R) (r1 r2 : R)
    (hc : ∀ st : PyVal,
      c.accumulate (c.accumulate st (c.get_value r1)) (c.get_value r2)
        = c.accumulate (c.accumulate st (c.get_value r2)) (c.get_value r1))
    (i : Nat) (row : Row) :
    (row.set i (c.accumulate (row.getD i junkVal) (c.get_value r2))).set i
        (c.accumulate
          ((row.set i (c.accumulate (row.getD i junkVal)
            (c.get_value r2))).getD i junkVal)
          (c.get_value r1))
      = (row.set i (c.accumulate (row.getD i junkVal) (c.get_value r1))).set i
          (c.accumulate
            ((row.set i (c.accumulate (row.getD i junkVal)
              (c.get_value r1))).getD i junkVal)
            (c.get_value r2)) := by
  by_cases hlen : i < row.length
  · rw [getD_set_self row hlen, getD_set_self row hlen, List.set_set,
      List.set_set, ← hc (row.getD i junkVal)]
  · simp [List.set_eq_of_length_le (Nat.le_of_not_lt hlen)]

theorem accumColumns_swap {R : Type} (cols : List (StatisticsColumn R))
    (r1 r2 : R) :
    (∀ c ∈ cols, ∀ st : PyVal,
      c.accumulate (c.accumulate st (c.get_value r1)) (c.get_value r2)
        = c.accumulate (c.accumulate st (c.get_value r2)) (c.get_value r1)) →
    ∀ (i : Nat) (row : Row),
    accumColumns cols r1 i (accumColumns cols r2 i row)
      = accumColumns cols r2 i (accumColumns cols r1 i row) := by
  induction cols with
  | nil => intro _ i row; rfl
  | cons c cs ih =>
      intro hcomm i row
      have hc : ∀ st : PyVal,
          c.accumulate (c.accumulate st (c.get_value r1)) (c.get_value r2)
            = c.accumulate (c.accumulate st (c.get_value r2)) (c.get_value r1) :=
        hcomm c (List.mem_cons_self c cs)
      have hcs : ∀ c2 ∈ cs, ∀ st : PyVal,
          c2.accumulate (c2.accumulate st (c2.get_value r1)) (c2.get_value r2)
            = c2.accumulate (c2.accumulate st (c2.get_value r2)) (c2.get_value r1) :=
        fun c2 hc2 => hcomm c2 (List.mem_cons_of_mem c hc2)
      show accumColumns cs r1 (i + 1)
          ((accumColumns cs r2 (i + 1)
              (row.set i (c.accumulate (row.getD i junkVal) (c.get_value r2)))).set i
            (c.accumulate
              ((accumColumns cs r2 (i + 1)
                (row.set i (c.accumulate (row.getD i junkVal)
                  (c.get_value r2)))).getD i junkVal)
              (c.get_value r1)))
        = accumColumns cs r2 (i + 1)
          ((accumColumns cs r1 (i + 1)
              (row.set i (c.accumulate (row.getD i junkVal) (c.get_value r1)))).set i
            (c.accumulate
              ((accumColumns cs r1 (i + 1)
                (row.set i (c.accumulate (row.getD i junkVal)
                  (c.get_value r1)))).getD i junkVal)
              (c.get_value r2)))
      rw [← accumColumns_push_set cs r2 c r1, ← accumColumns_push_set cs r1 c r2,
        set_step_comm c r1 r2 hc i row]
      exact ih hcs (i + 1) _

theorem rowOf_lookup_some {G : List (GroupKey × Row)} {k : GroupKey}
    {g : Row} (init : Row) (h : lookupRow G k = Option.some g) :
    rowOf G k init = if g = [] then init else g := by
  unfold rowOf
  rw [h]

theorem rowOf_lookup_none {G : List (GroupKey × Row)} {k : GroupKey}
    (init : Row) (h : lookupRow G k = Option.none) :
    rowOf G k init = init := by
  unfold rowOf
  rw [h]

theorem rowOf_length {G : List (GroupKey × Row)} {init : Row}
    (hrl : RowsLen G init) (k : GroupKey) :
    (rowOf G k init).length = init.length := by
  cases h : lookupRow G k with
  | none => rw [rowOf_lookup_none init h]
  | some g =>
      rw [rowOf_lookup_some init h]
      by_cases hg : g = []
      · rw [if_pos hg]
      · rw [if_neg hg]
        exact hrl (k, g) (lookupRow_mem h)

theorem rowOf_perm {G1 G2 : List (GroupKey × Row)} (hnd : NoDupKeys G1)
    (h : G1.Perm G2) (k : GroupKey) (init : Row) :
    rowOf G1 k init = rowOf G2 k init := by
  unfold rowOf
  rw [lookupRow_perm hnd h k]

theorem dictSet_rowslen {G : List (GroupKey × Row)} {init : Row}
    {k : GroupKey} {v : Row} (hrl : RowsLen G init)
    (hv : v.length = init.length) : RowsLen (dictSet G k v) init := by
  intro kv hkv
  rcases mem_dictSet hkv with hmem | heq
  · exact hrl kv hmem
  · rw [heq]
    exact hv

theorem gstep_rowslen {R : Type} {gcols cols : List (StatisticsColumn R)}
    {init : Row} {off : Nat} {G : List (GroupKey × Row)}
    (hrl : RowsLen G init) (r : R) :
    RowsLen (gstep gcols init cols off G r) init := by
  apply dictSet_rowslen hrl
  rw [accumColumns_length]
  exact rowOf_length hrl _

theorem gstep_nodup {R : Type} {gcols cols : List (StatisticsColumn R)}
    {init : Row} {off : Nat} {G : List (GroupKey × Row)}
    (hnd : NoDupKeys G) (r : R) :
    NoDupKeys (gstep gcols init cols off G r) :=
  dictSet_nodup hnd _ _

theorem gstep_congr {R : Type} {gcols cols : List (StatisticsColumn R)}
    {init : Row} {off : Nat} {G1 G2 : List (GroupKey × Row)}
    (hnd : NoDupKeys G1) (h : G1.Perm G2) (r : R) :
    (gstep gcols init cols off G1 r).Perm (gstep gcols init cols off G2 r) := by
  simp only [gstep]
  rw [rowOf_perm hnd h]
  exact dictSet_perm h _ _

theorem gstep_frame {R : Type} (gcols cols : List (StatisticsColumn R))
    (init : Row) (off : Nat) (G : List (GroupKey × Row)) (r : R)
    {k : GroupKey} (h : k ≠ gcols.map (fun c => c.get_value r)) :
    lookupRow (gstep gcols init cols off G r) k = lookupRow G k :=
  lookupRow_dictSet_ne G h _

theorem rowOf_ne_nil {G : List (GroupKey × Row)} {init : Row}
    (hrl : RowsLen G init) (hinit : init ≠ []) (k : GroupKey) :
    rowOf G k init ≠ [] := by
  intro hcontra
  apply hinit
  have hl := rowOf_length hrl k
  rw [hcontra] at hl
  exact (List.length_eq_zero.mp hl.symm)

theorem gstep_swap {R : Type} {gcols cols : List (StatisticsColumn R)}
    {init : Row} {off : Nat} {G : List (GroupKey × Row)}
    (_hnd : NoDupKeys G) (hrl : RowsLen G init) (a b : R)
    (hcomm : ∀ c ∈ cols, ∀ (st : PyVal) (x y : R),
      c.accumulate (c.accumulate st (c.get_value x)) (c.get_value y)
        = c.accumulate (c.accumulate st (c.get_value y)) (c.get_value x)) :
    (gstep gcols init cols off (gstep gcols init cols off G a) b).Perm
      (gstep gcols init cols off (gstep gcols init cols off G b) a) := by
  simp only [gstep]
  by_cases hkey : gcols.map (fun c => c.get_value b)
      = gcols.map (fun c => c.get_value a)
  · rw [hkey]
    by_cases hinit : init = []
    · subst hinit
      have hrownil : ∀ (H : List (GroupKey × Row)), RowsLen H [] →
          ∀ k2 : GroupKey, rowOf H k2 [] = [] := by
        intro H hH k2
        have hl := rowOf_length hH k2
        exact List.eq_nil_of_length_eq_zero hl
      have hrl2 : RowsLen (dictSet G (List.map (fun c => c.get_value a) gcols) []) [] :=
        @dictSet_rowslen G [] (List.map (fun c => c.get_value a) gcols) [] hrl rfl
      simp only [hrownil G hrl, accumColumns_nil_row]
      simp only [hrownil _ hrl2, accumColumns_nil_row, dictSet_overwrite]
      exact List.Perm.refl _
    · have hrow : rowOf G (gcols.map (fun c => c.get_value a)) init ≠ [] :=
        rowOf_ne_nil hrl hinit _
      have hva : accumColumns cols a off
          (rowOf G (gcols.map (fun c => c.get_value a)) init) ≠ [] := by
        intro hcontra
        apply hrow
        have hl := accumColumns_length cols a off
          (rowOf G (gcols.map (fun c => c.get_value a)) init)
        rw [hcontra] at hl
        exact List.eq_nil_of_length_eq_zero hl.symm
      have hvb : accumColumns cols b off
          (rowOf G (gcols.map (fun c => c.get_value a)) init) ≠ [] := by
        intro hcontra
        apply hrow
        have hl := accumColumns_length cols b off
          (rowOf G (gcols.map (fun c => c.get_value a)) init)
        rw [hcontra] at hl
        exact List.eq_nil_of_length_eq_zero hl.symm
      rw [rowOf_lookup_some init (lookupRow_dictSet_self G _ _), if_neg hva,
        rowOf_lookup_some init (lookupRow_dictSet_self G _ _), if_neg hvb,
        dictSet_overwrite, dictSet_overwrite,
        accumColumns_swap cols b a (fun c hc st => hcomm c hc st b a) off]
  · have hrow1 : rowOf (dictSet G (gcols.map (fun c => c.get_value a))
        (accumColumns cols a off
          (rowOf G (gcols.map (fun c => c.get_value a)) init)))
        (gcols.map (fun c => c.get_value b)) init
        = rowOf G (gcols.map (fun c => c.get_value b)) init := by
      unfold rowOf
      rw [lookupRow_dictSet_ne G hkey]
    have hrow2 : rowOf (dictSet G (gcols.map (fun c => c.get_value b))
        (accumColumns cols b off
          (rowOf G (gcols.map (fun c => c.get_value b)) init)))
        (gcols.map (fun c => c.get_value a)) init
        = rowOf G (gcols.map (fun c => c.get_value a)) init := by
      unfold rowOf
      rw [lookupRow_dictSet_ne G (fun hh => hkey hh.symm)]
    rw [hrow1, hrow2]
    exact dictSet_comm (fun hh => hkey hh.symm) _ _

theorem foldl_gstep_nodup_rowslen {R : Type}
    {gcols cols : List (StatisticsColumn R)} {init : Row} {off : Nat}
    (l : List R) : ∀ (G : List (GroupKey × Row)), NoDupKeys G →
    RowsLen G init →
    NoDupKeys (l.foldl (gstep gcols init cols off) G)
      ∧ RowsLen (l.foldl (gstep gcols init cols off) G) init := by
  induction l with
  | nil => intro G hnd hrl; exact ⟨hnd, hrl⟩
  | cons r l ih =>
      intro G hnd hrl
      exact ih _ (gstep_nodup hnd r) (gstep_rowslen hrl r)

theorem foldl_gstep_congr {R : Type}
    {gcols cols : List (StatisticsColumn R)} {init : Row} {off : Nat}
    (l : List R) : ∀ (G1 G2 : List (GroupKey × Row)), NoDupKeys G1 →
    G1.Perm G2 →
    (l.foldl (gstep gcols init cols off) G1).Perm
      (l.foldl (gstep gcols init cols off) G2) := by
  induction l with
  | nil => intro G1 G2 _ h; exact h
  | cons r l ih =>
      intro G1 G2 hnd h
      exact ih _ _ (gstep_nodup hnd r) (gstep_congr hnd h r)

theorem foldl_gstep_perm {R : Type}
    {gcols cols : List (StatisticsColumn R)} {init : Row} {off : Nat}
    {l1 l2 : List R} (hperm : l1.Perm l2)
    (hcomm : ∀ c ∈ cols, ∀ (st : PyVal) (x y : R),
      c.accumulate (c.accumulate st (c.get_value x)) (c.get_value y)
        = c.accumulate (c.accumulate st (c.get_value y)) (c.get_value x)) :
    ∀ (G : List (GroupKey × Row)), NoDupKeys G → RowsLen G init →
    (l1.foldl (gstep gcols init cols off) G).Perm
      (l2.foldl (gstep gcols init cols off) G) := by
  induction hperm with
  | nil => intro G _ _; exact List.Perm.refl _
  | cons x hp ih =>
      intro G hnd hrl
      simp only [List.foldl_cons]
      exact ih _ (gstep_nodup hnd x) (gstep_rowslen hrl x)
  | swap x y l =>
      intro G hnd hrl
      simp only [List.foldl_cons]
      apply foldl_gstep_congr l _ _
        (gstep_nodup (gstep_nodup hnd y) x)
      exact gstep_swap hnd hrl y x hcomm
  | trans hp1 hp2 ih1 ih2 =>
      intro G hnd hrl
      exact (ih1 G hnd hrl).trans (ih2 G hnd hrl)

theorem sortInsert_perm {A : Type} (key : A → PyVal) (x : A) (l : List A) :
    (sortInsert key x l).Perm (x :: l) := by
  induction l with
  | nil => exact List.Perm.refl _
  | cons y ys ih =>
      unfold sortInsert
      by_cases h : pyLtB (key x) (key y) = true
      · rw [if_pos h]
        exact (ih.cons y).trans (List.Perm.swap x y ys)
      · rw [if_neg h]

theorem sortDesc_perm {A : Type} (key : A → PyVal) (l : List A) :
    (sortDesc key l).Perm l := by
  induction l with
  | nil => exact List.Perm.refl _
  | cons x xs ih =>
      unfold sortDesc
      exact (sortInsert_perm key x (sortDesc key xs)).trans (ih.cons x)

theorem sortInsert_sorted {A : Type} (key : A → PyVal) (x : A) (l : List A)
    (hx : isScalarB (key x) = true)
    (hl : ∀ y ∈ l, isScalarB (key y) = true)
    (hs : l.Pairwise (fun u v => pyLtB (key u) (key v) = false)) :
    (sortInsert key x l).Pairwise (fun u v => pyLtB (key u) (key v) = false) := by
  induction l with
  | nil => exact List.pairwise_singleton _ x
  | cons y ys ih =>
      rcases List.pairwise_cons.mp hs with ⟨hhead, htail⟩
      unfold sortInsert
      by_cases h : pyLtB (key x) (key y) = true
      · rw [if_pos h]
        apply List.pairwise_cons.mpr
        constructor
        · intro z hz
          rcases List.mem_cons.mp ((sortInsert_perm key x ys).mem_iff.mp hz)
            with hzx | hzys
          · rw [hzx]
            exact pyLtB_asymm h
          · exact hhead z hzys
        · exact ih (fun y2 hy2 => hl y2 (List.mem_cons_of_mem y hy2)) htail
      · rw [if_neg h]
        apply List.pairwise_cons.mpr
        constructor
        · intro z hz
          rcases List.mem_cons.mp hz with hzy | hzys
          · rw [hzy]
            exact Bool.eq_false_iff.mpr h
          · exact pyLtB_negtrans hx (hl y (List.mem_cons_self y ys))
              (hl z (List.mem_cons_of_mem y hzys))
              (Bool.eq_false_iff.mpr h) (hhead z hzys)
        · exact hs

theorem sortDesc_sorted {A : Type} (key : A → PyVal) (l : List A)
    (hl : ∀ y ∈ l, isScalarB (key y) = true) :
    (sortDesc key l).Pairwise (fun u v => pyLtB (key u) (key v) = false) := by
  induction l with
  | nil => exact List.Pairwise.nil
  | cons x xs ih =>
      unfold sortDesc
      apply sortInsert_sorted key x (sortDesc key xs)
        (hl x (List.mem_cons_self x xs))
      · intro y hy
        exact hl y (List.mem_cons_of_mem x
          ((sortDesc_perm key xs).mem_iff.mp hy))
      · exact ih (fun y hy => hl y (List.mem_cons_of_mem x hy))

theorem sortInsert_filter_pos {A : Type} (key : A → PyVal) (x : A)
    (c : PyVal) (hx : key x = c) (l : List A) :
    (sortInsert key x l).filter (fun z => decide (key z = c))
      = x :: l.filter (fun z => decide (key z = c)) := by
  induction l with
  | nil => simp [sortInsert, hx]
  | cons y ys ih =>
      unfold sortInsert
      by_cases h : pyLtB (key x) (key y) = true
      · rw [if_pos h]
        have hyc : ¬ (key y = c) := by
          intro hyc
          have heq : key y = key x := by rw [hyc, hx]
          rw [heq] at h
          rw [pyLtB_irrefl (key x)] at h
          cases h
        rw [List.filter_cons_of_neg (by simp [hyc]), ih,
          List.filter_cons_of_neg (by simp [hyc])]
      · rw [if_neg h]
        rw [List.filter_cons_of_pos (by simp [hx])]

theorem sortInsert_filter_neg {A : Type} (key : A → PyVal) (x : A)
    (c : PyVal) (hx : ¬ key x = c) (l : List A) :
    (sortInsert key x l).filter (fun z => decide (key z = c))
      = l.filter (fun z => decide (key z = c)) := by
  induction l with
  | nil => simp [sortInsert, hx]
  | cons y ys ih =>
      unfold sortInsert
      by_cases h : pyLtB (key x) (key y) = true
      · rw [if_pos h]
        by_cases hyc : key y = c
        · rw [List.filter_cons_of_pos (by simp [hyc]), ih,
            List.filter_cons_of_pos (by simp [hyc])]
        · rw [List.filter_cons_of_neg (by simp [hyc]), ih,
            List.filter_cons_of_neg (by simp [hyc])]
      · rw [if_neg h]
        rw [List.filter_cons_of_neg (by simp [hx])]

theorem sortDesc_filter {A : Type} (key : A → PyVal) (l : List A)
    (c : PyVal) :
    (sortDesc key l).filter (fun z => decide (key z = c))
      = l.filter (fun z => decide (key z = c)) := by
  induction l with
  | nil => rfl
  | cons x xs ih =>
      unfold sortDesc
      by_cases hx : key x = c
      · rw [sortInsert_filter_pos key x c hx, ih,
          List.filter_cons_of_pos (by simp [hx])]
      · rw [sortInsert_filter_neg key x c hx, ih,
          List.filter_cons_of_neg (by simp [hx])]

theorem foldl_gstep_rowslen {R : Type}
    {gcols cols : List (StatisticsColumn R)} {init : Row} {off : Nat}
    (l : List R) : ∀ (G : List (GroupKey × Row)), RowsLen G init →
    RowsLen (l.foldl (gstep gcols init cols off) G) init := by
  induction l with
  | nil => intro G hrl; exact hrl
  | cons r l ih => intro G hrl; exact ih _ (gstep_rowslen hrl r)

theorem process_records_slotinv {R : Type} {s : Statistics R}
    (hinv : SlotInvariant s) (records : List R)
    (cols : List (StatisticsColumn R)) :
    SlotInvariant (s.process_records records cols) := by
  rcases hinv with ⟨hinitdef, hrows⟩
  constructor
  · show s.init_values ++ cols.map (fun c => c.default_value)
      = (s.columns ++ cols).map (fun c => c.default_value)
    rw [List.map_append, hinitdef]
  · have hbase : RowsLen
        (s.groups.map (fun kv => (kv.1, kv.2 ++ cols.map (fun c => c.default_value))))
        (s.init_values ++ cols.map (fun c => c.default_value)) := by
      intro kv hkv
      rcases List.mem_map.mp hkv with ⟨kv0, hkv0, heq⟩
      rw [← heq]
      show (kv0.2 ++ cols.map (fun c => c.default_value)).length
        = (s.init_values ++ cols.map (fun c => c.default_value)).length
      rw [List.length_append, List.length_append, hrows kv0 hkv0,
        hinitdef, List.length_map, List.length_map]
    have hfold := @foldl_gstep_rowslen R s.group_columns cols
      (s.init_values ++ cols.map (fun c => c.default_value))
      s.columns.length records _ hbase
    intro kv hkv
    have hlen := hfold kv hkv
    show kv.2.length = (s.columns ++ cols).length
    rw [hlen, List.length_append, List.length_append,
      hinitdef, List.length_map, List.length_map]

/-- C1 — For every sequence of `process_records` calls starting from a
fresh aggregator, after each call `_init_values` lists the default value
of every accumulated column registered so far, and the state vector of
every group row has exactly as many slots as the total number of
accumulated columns registered across all calls so far: the per-call
extension step backfills existing rows with the new defaults, and a group
created later starts from a full copy of all defaults registered so far. -/
theorem c1_slot_invariant {R : Type} (gcols : List (StatisticsColumn R))
    (passes : List (List R × List (StatisticsColumn R))) :
    SlotInvariant (passes.foldl
      (fun st p => st.process_records p.1 p.2) (Statistics.init gcols)) := by
  have hbase : SlotInvariant (Statistics.init gcols) := by
    constructor
    · rfl
    · intro kv hkv
      cases hkv
  have haux : ∀ (ps : List (List R × List (StatisticsColumn R)))
      (s : Statistics R), SlotInvariant s →
      SlotInvariant (ps.foldl (fun st p => st.process_records p.1 p.2) s) := by
    intro ps
    induction ps with
    | nil => intro s hs; exact hs
    | cons p ps ih =>
        intro s hs
        exact ih _ (process_records_slotinv hs p.1 p.2)
  exact haux passes _ hbase

theorem list_length_one_eq {A : Type} (l : List A) (d : A)
    (h : l.length = 1) : l = [l.getD 0 d] := by
  cases l with
  | nil => cases h
  | cons x xs =>
      cases xs with
      | nil => rfl
      | cons y ys => cases h

theorem foldl_gstep_single_lookup {R : Type} (gcols : List (StatisticsColumn R))
    (c : StatisticsColumn R) (records : List R) :
    ∀ (G : List (GroupKey × Row)) (k : GroupKey),
    RowsLen G [c.default_value] →
    lookupRow (records.foldl (gstep gcols [c.default_value] [c] 0) G) k
      = (if (records.filter (fun r =>
            decide (gcols.map (fun c2 => c2.get_value r) = k))).isEmpty
         then lookupRow G k
         else Option.some [(records.filter (fun r =>
            decide (gcols.map (fun c2 => c2.get_value r) = k))).foldl
              (fun v r => c.accumulate v (c.get_value r))
              ((rowOf G k [c.default_value]).getD 0 junkVal)]) := by
  induction records with
  | nil =>
      intro G k _
      rfl
  | cons r rs ih =>
      intro G k hrl
      have hrow1 : rowOf G (gcols.map (fun c2 => c2.get_value r))
          [c.default_value]
          = [(rowOf G (gcols.map (fun c2 => c2.get_value r))
              [c.default_value]).getD 0 junkVal] :=
        list_length_one_eq _ _ (rowOf_length hrl _)
      have hrl2 : RowsLen (gstep gcols [c.default_value] [c] 0 G r)
          [c.default_value] := gstep_rowslen hrl r
      by_cases hk : gcols.map (fun c2 => c2.get_value r) = k
      · have hstep : lookupRow (gstep gcols [c.default_value] [c] 0 G r) k
            = Option.some [c.accumulate
                ((rowOf G k [c.default_value]).getD 0 junkVal)
                (c.get_value r)] := by
          simp only [gstep]
          rw [hk]
          have haccum : accumColumns [c] r 0 (rowOf G k [c.default_value])
              = [c.accumulate ((rowOf G k [c.default_value]).getD 0 junkVal)
                  (c.get_value r)] := by
            rw [hk] at hrow1
            rw [hrow1]
            rfl
          rw [haccum]
          exact lookupRow_dictSet_self G k _
        have hst2 : (rowOf (gstep gcols [c.default_value] [c] 0 G r) k
            [c.default_value]).getD 0 junkVal
            = c.accumulate ((rowOf G k [c.default_value]).getD 0 junkVal)
                (c.get_value r) := by
          rw [rowOf_lookup_some _ hstep, if_neg (by simp)]
          rfl
        have hfilter : (r :: rs).filter (fun r2 =>
            decide (gcols.map (fun c2 => c2.get_value r2) = k))
            = r :: rs.filter (fun r2 =>
                decide (gcols.map (fun c2 => c2.get_value r2) = k)) := by
          rw [List.filter_cons_of_pos (by simp [hk])]
        simp only [List.foldl_cons]
        rw [ih _ k hrl2, hfilter]
        by_cases hempty : (rs.filter (fun r2 =>
            decide (gcols.map (fun c2 => c2.get_value r2) = k))).isEmpty = true
        · rw [if_pos hempty, hstep]
          have : rs.filter (fun r2 =>
              decide (gcols.map (fun c2 => c2.get_value r2) = k)) = [] :=
            List.isEmpty_iff.mp hempty
          rw [this]
          rw [if_neg (by simp)]
          rfl
        · rw [if_neg hempty, if_neg (by simp [hempty]), hst2]
          rfl
      · have hframe : lookupRow (gstep gcols [c.default_value] [c] 0 G r) k
            = lookupRow G k :=
          gstep_frame gcols [c] [c.default_value] 0 G r
            (fun hh => hk hh.symm)
        have hrow2 : rowOf (gstep gcols [c.default_value] [c] 0 G r) k
            [c.default_value] = rowOf G k [c.default_value] := by
          unfold rowOf
          rw [hframe]
        have hfilter : (r :: rs).filter (fun r2 =>
            decide (gcols.map (fun c2 => c2.get_value r2) = k))
            = rs.filter (fun r2 =>
                decide (gcols.map (fun c2 => c2.get_value r2) = k)) := by
          rw [List.filter_cons_of_neg (by simp [hk])]
        simp only [List.foldl_cons]
        rw [ih _ k hrl2, hfilter, hframe, hrow2]

theorem distinct_acc_contrib {R : Type} (name : String) (p : R → PyVal)
    {v : Scalar} (htr : pyTruthy (PyVal.scalar v) = true) (A : Finset Scalar) :
    (StatisticsDistinctCountColumn name p).accumulate (PyVal.vset A)
      (PyVal.scalar v) = PyVal.vset (insert v A) := by
  show (if pyTruthy (PyVal.scalar v) = true
      then PyVal.vset (insert v A) else PyVal.vset A) = PyVal.vset (insert v A)
  rw [if_pos htr]

theorem distinct_acc_none {R : Type} (name : String) (p : R → PyVal)
    (A : Finset Scalar) :
    (StatisticsDistinctCountColumn name p).accumulate (PyVal.vset A)
      (PyVal.scalar Scalar.vnone) = PyVal.vset A := rfl

theorem distinct_fold_cases {R : Type} (name : String) (p : R → PyVal)
    {v : Scalar} (htr : pyTruthy (PyVal.scalar v) = true)
    (records : List R)
    (hvals : ∀ r ∈ records, p r = PyVal.scalar v ∨ p r = PyVal.scalar Scalar.vnone) :
    ∀ A : Finset Scalar,
    records.foldl (fun st r =>
        (StatisticsDistinctCountColumn name p).accumulate st
          ((StatisticsDistinctCountColumn name p).get_value r)) (PyVal.vset A)
      = PyVal.vset A
    ∨ records.foldl (fun st r =>
        (StatisticsDistinctCountColumn name p).accumulate st
          ((StatisticsDistinctCountColumn name p).get_value r)) (PyVal.vset A)
      = PyVal.vset (insert v A) := by
  induction records with
  | nil => intro A; exact Or.inl rfl
  | cons r rs ih =>
      intro A
      have hrs : ∀ r2 ∈ rs, p r2 = PyVal.scalar v ∨ p r2 = PyVal.scalar Scalar.vnone :=
        fun r2 hr2 => hvals r2 (List.mem_cons_of_mem r hr2)
      simp only [List.foldl_cons]
      rcases hvals r (List.mem_cons_self r rs) with hv | hn
      · have hseed : (StatisticsDistinctCountColumn name p).accumulate
            (PyVal.vset A) ((StatisticsDistinctCountColumn name p).get_value r)
            = PyVal.vset (insert v A) := by
          show (StatisticsDistinctCountColumn name p).accumulate
            (PyVal.vset A) (p r) = PyVal.vset (insert v A)
          rw [hv]
          exact distinct_acc_contrib name p htr A
        rw [hseed]
        rcases ih hrs (insert v A) with h2 | h2
        · exact Or.inr h2
        · rw [Finset.insert_idem] at h2
          exact Or.inr h2
      · have hseed : (StatisticsDistinctCountColumn name p).accumulate
            (PyVal.vset A) ((StatisticsDistinctCountColumn name p).get_value r)
            = PyVal.vset A := by
          show (StatisticsDistinctCountColumn name p).accumulate
            (PyVal.vset A) (p r) = PyVal.vset A
          rw [hn]
          exact distinct_acc_none name p A
        rw [hseed]
        exact ih hrs A

theorem distinct_fold_some {R : Type} (name : String) (p : R → PyVal)
    {v : Scalar} (htr : pyTruthy (PyVal.scalar v) = true)
    (records : List R)
    (hvals : ∀ r ∈ records, p r = PyVal.scalar v ∨ p r = PyVal.scalar Scalar.vnone)
    (hsome : ∃ r ∈ records, p r = PyVal.scalar v) :
    ∀ A : Finset Scalar,
    records.foldl (fun st r =>
        (StatisticsDistinctCountColumn name p).accumulate st
          ((StatisticsDistinctCountColumn name p).get_value r)) (PyVal.vset A)
      = PyVal.vset (insert v A) := by
  induction records with
  | nil =>
      rcases hsome with ⟨r, hr, _⟩
      cases hr
  | cons r rs ih =>
      intro A
      have hrs : ∀ r2 ∈ rs, p r2 = PyVal.scalar v ∨ p r2 = PyVal.scalar Scalar.vnone :=
        fun r2 hr2 => hvals r2 (List.mem_cons_of_mem r hr2)
      simp only [List.foldl_cons]
      rcases hvals r (List.mem_cons_self r rs) with hv | hn
      · have hseed : (StatisticsDistinctCountColumn name p).accumulate
            (PyVal.vset A) ((StatisticsDistinctCountColumn name p).get_value r)
            = PyVal.vset (insert v A) := by
          show (StatisticsDistinctCountColumn name p).accumulate
            (PyVal.vset A) (p r) = PyVal.vset (insert v A)
          rw [hv]
          exact distinct_acc_contrib name p htr A
        rw [hseed]
        rcases distinct_fold_cases name p htr rs hrs (insert v A) with h1 | h1
        · exact h1
        · rw [Finset.insert_idem] at h1
          exact h1
      · have hseed : (StatisticsDistinctCountColumn name p).accumulate
            (PyVal.vset A) ((StatisticsDistinctCountColumn name p).get_value r)
            = PyVal.vset A := by
          show (StatisticsDistinctCountColumn name p).accumulate
            (PyVal.vset A) (p r) = PyVal.vset A
          rw [hn]
          exact distinct_acc_none name p A
        rw [hseed]
        apply ih hrs
        rcases hsome with ⟨r2, hr2, hpr2⟩
        rcases List.mem_cons.mp hr2 with heq | hmem
        · rw [heq] at hpr2
          rw [hn] at hpr2
          cases hpr2
          simp [pyTruthy] at htr
        · exact ⟨r2, hmem, hpr2⟩

theorem count_fold {R : Type} (name : String) (q : R → PyVal)
    (records : List R) : ∀ m : Int,
    records.foldl (fun st r =>
        (StatisticsCountColumn name q).accumulate st
          ((StatisticsCountColumn name q).get_value r))
      (PyVal.scalar (Scalar.vint m))
      = PyVal.scalar (Scalar.vint
          (m + (records.countP (fun r => pyTruthy (q r)) : Int))) := by
  induction records with
  | nil => intro m; simp
  | cons r rs ih =>
      intro m
      simp only [List.foldl_cons]
      have hseed : (StatisticsCountColumn name q).accumulate
          (PyVal.scalar (Scalar.vint m))
          ((StatisticsCountColumn name q).get_value r)
          = PyVal.scalar (Scalar.vint
              (m + if pyTruthy (q r) = true then 1 else 0)) := by
        show pyAdd (PyVal.scalar (Scalar.vint m))
            (if pyTruthy (q r) = true then PyVal.scalar (Scalar.vint 1)
              else PyVal.scalar (Scalar.vint 0)) = _
        by_cases hq : pyTruthy (q r) = true
        · rw [if_pos hq, if_pos hq]
          rfl
        · rw [if_neg hq, if_neg hq]
          rfl
      rw [hseed, ih, List.countP_cons]
      congr 2
      by_cases hq : pyTruthy (q r) = true <;> simp [hq] <;> omega

/-- C2 — For every distinct-count column and every group of an aggregator
processing an arbitrary mixed-group record batch: if the group's records
contribute one identifying value (any number of times, at least once,
possibly interleaved with `None` no-contribution records), the group's
accumulated set ends as the one-element set — whose sortable projection is
1 and whose rendered string is `1` — and accumulating the `None` sentinel
leaves any accumulated set unchanged. -/
theorem c2_distinct_count {R : Type} (gcols : List (StatisticsColumn R))
    (name : String) (p : R → PyVal) (records : List R)
    (k : GroupKey) (v : Scalar)
    (hvals : ∀ r ∈ records, gcols.map (fun c => c.get_value r) = k →
      (p r = PyVal.scalar v ∨ p r = PyVal.scalar Scalar.vnone))
    (htr : pyTruthy (PyVal.scalar v) = true)
    (hsome : ∃ r ∈ records,
      gcols.map (fun c => c.get_value r) = k ∧ p r = PyVal.scalar v) :
    lookupRow ((Statistics.init gcols).process_records records
        [StatisticsDistinctCountColumn name p]).groups k
      = Option.some [PyVal.vset {v}]
    ∧ (StatisticsDistinctCountColumn name p).to_sortable (PyVal.vset {v})
      = PyVal.scalar (Scalar.vint 1)
    ∧ (StatisticsDistinctCountColumn name p).to_string (PyVal.vset {v}) = "1"
    ∧ ∀ A : Finset Scalar,
      (@StatisticsDistinctCountColumn R name p).accumulate (PyVal.vset A)
        (PyVal.scalar Scalar.vnone) = PyVal.vset A := by
  refine ⟨?_, ?_, ?_, fun A => distinct_acc_none name p A⟩
  · have h := foldl_gstep_single_lookup gcols
      (StatisticsDistinctCountColumn name p) records [] k
      (fun kv hkv => absurd hkv (List.not_mem_nil kv))
    have hlook : lookupRow ((Statistics.init gcols).process_records records
        [StatisticsDistinctCountColumn name p]).groups k
        = (if (records.filter (fun r =>
              decide (gcols.map (fun c2 => c2.get_value r) = k))).isEmpty
           then lookupRow [] k
           else Option.some [(records.filter (fun r =>
              decide (gcols.map (fun c2 => c2.get_value r) = k))).foldl
                (fun st r => (StatisticsDistinctCountColumn name p).accumulate st
                  ((StatisticsDistinctCountColumn name p).get_value r))
                ((rowOf [] k [(StatisticsDistinctCountColumn
                  name p).default_value]).getD 0 junkVal)]) := h
    rcases hsome with ⟨r, hr, hkr, hpr⟩
    have hmem : r ∈ records.filter (fun r2 =>
        decide (gcols.map (fun c2 => c2.get_value r2) = k)) :=
      List.mem_filter.mpr ⟨hr, by simp [hkr]⟩
    have hne : ¬ (records.filter (fun r2 =>
        decide (gcols.map (fun c2 => c2.get_value r2) = k))).isEmpty = true := by
      intro hempty
      rw [List.isEmpty_iff.mp hempty] at hmem
      exact absurd hmem (List.not_mem_nil r)
    rw [hlook, if_neg hne]
    have hrow : (rowOf [] k [(StatisticsDistinctCountColumn
        name p).default_value]).getD 0 junkVal = PyVal.vset ∅ := by
      rw [rowOf_lookup_none _ (by unfold lookupRow; rfl)]
      rfl
    rw [hrow]
    have hfold := distinct_fold_some name p htr
      (records.filter (fun r2 =>
        decide (gcols.map (fun c2 => c2.get_value r2) = k)))
      (fun r2 hr2 => by
        rcases List.mem_filter.mp hr2 with ⟨hmem2, hk2⟩
        exact hvals r2 hmem2 (of_decide_eq_true hk2))
      ⟨r, hmem, hpr⟩ ∅
    rw [hfold]
    simp
  · show PyVal.scalar (Scalar.vint (Finset.card {v})) = _
    rw [Finset.card_singleton]
    rfl
  · show toString (Finset.card {v}) = "1"
    rw [Finset.card_singleton]
    rfl

/-- C6 — For every count column and every group of an aggregator
processing an arbitrary mixed-group record batch: the group's accumulated
state is the number of its records whose predicate is truthy, rendered as
the decimal string of that count; a group whose records are all
falsy-predicate ends at state 0, and a row whose only accumulated state is
the default 0 is suppressed by the default-value filter. -/
theorem c6_count_column {R : Type} (gcols : List (StatisticsColumn R))
    (name : String) (q : R → PyVal) (records : List R) (k : GroupKey)
    (hsome : ∃ r ∈ records, gcols.map (fun c => c.get_value r) = k) :
    lookupRow ((Statistics.init gcols).process_records records
        [StatisticsCountColumn name q]).groups k
      = Option.some [PyVal.scalar (Scalar.vint
          (((records.filter (fun r =>
              decide (gcols.map (fun c2 => c2.get_value r) = k))).countP
            (fun r => pyTruthy (q r)) : Int)))]
    ∧ (∀ n : Int, (@StatisticsCountColumn R name q).to_string
        (PyVal.scalar (Scalar.vint n)) = toString n)
    ∧ ((∀ r ∈ records, gcols.map (fun c => c.get_value r) = k →
          pyTruthy (q r) = false) →
        lookupRow ((Statistics.init gcols).process_records records
            [StatisticsCountColumn name q]).groups k
          = Option.some [PyVal.scalar (Scalar.vint 0)])
    ∧ rowKept [@StatisticsCountColumn R name q]
        [PyVal.scalar (Scalar.vint 0)] = false := by
  have hmain : lookupRow ((Statistics.init gcols).process_records records
      [StatisticsCountColumn name q]).groups k
      = Option.some [PyVal.scalar (Scalar.vint
          (((records.filter (fun r =>
              decide (gcols.map (fun c2 => c2.get_value r) = k))).countP
            (fun r => pyTruthy (q r)) : Int)))] := by
    have h := foldl_gstep_single_lookup gcols
      (StatisticsCountColumn name q) records [] k
      (fun kv hkv => absurd hkv (List.not_mem_nil kv))
    have hlook : lookupRow ((Statistics.init gcols).process_records records
        [StatisticsCountColumn name q]).groups k
        = (if (records.filter (fun r =>
              decide (gcols.map (fun c2 => c2.get_value r) = k))).isEmpty
           then lookupRow [] k
           else Option.some [(records.filter (fun r =>
              decide (gcols.map (fun c2 => c2.get_value r) = k))).foldl
                (fun st r => (StatisticsCountColumn name q).accumulate st
                  ((StatisticsCountColumn name q).get_value r))
                ((rowOf [] k [(StatisticsCountColumn
                  name q).default_value]).getD 0 junkVal)]) := h
    rcases hsome with ⟨r, hr, hkr⟩
    have hmem : r ∈ records.filter (fun r2 =>
        decide (gcols.map (fun c2 => c2.get_value r2) = k)) :=
      List.mem_filter.mpr ⟨hr, by simp [hkr]⟩
    have hne : ¬ (records.filter (fun r2 =>
        decide (gcols.map (fun c2 => c2.get_value r2) = k))).isEmpty = true := by
      intro hempty
      rw [List.isEmpty_iff.mp hempty] at hmem
      exact absurd hmem (List.not_mem_nil r)
    rw [hlook, if_neg hne]
    have hrow : (rowOf [] k [(StatisticsCountColumn
        name q).default_value]).getD 0 junkVal
        = PyVal.scalar (Scalar.vint 0) := by
      rw [rowOf_lookup_none _ (by unfold lookupRow; rfl)]
      rfl
    rw [hrow]
    have hfold := count_fold name q (records.filter (fun r2 =>
      decide (gcols.map (fun c2 => c2.get_value r2) = k))) 0
    rw [hfold, Int.zero_add]
  refine ⟨hmain, fun n => rfl, ?_, ?_⟩
  · intro hall
    have hzero : (records.filter (fun r2 =>
        decide (gcols.map (fun c2 => c2.get_value r2) = k))).countP
        (fun r => pyTruthy (q r)) = 0 := by
      rw [List.countP_eq_zero]
      intro r hr
      rcases List.mem_filter.mp hr with ⟨hmem2, hk2⟩
      rw [hall r hmem2 (of_decide_eq_true hk2)]
      simp
    rw [hmain, hzero]
    rfl
  · rfl


theorem rowKeptAux_iff {R : Type} (value : Row)
    (cols : List (StatisticsColumn R)) : ∀ i : Nat,
    rowKeptAux value i cols = true
      ↔ ∃ j : Nat, ∃ h : j < cols.length,
          value.getD (i + j) junkVal ≠ (cols.get ⟨j, h⟩).default_value := by
  induction cols with
  | nil =>
      intro i
      constructor
      · intro h
        simp [rowKeptAux] at h
      · rintro ⟨j, h, _⟩
        exact absurd h (Nat.not_lt_zero j)
  | cons c cs ih =>
      intro i
      unfold rowKeptAux
      rw [Bool.or_eq_true, decide_eq_true_eq, ih (i + 1)]
      constructor
      · rintro (h0 | ⟨j, hj, hne⟩)
        · refine ⟨0, Nat.succ_pos _, ?_⟩
          rw [Nat.add_zero]
          exact h0
        · refine ⟨j + 1, Nat.succ_lt_succ hj, ?_⟩
          rw [show i + (j + 1) = (i + 1) + j by omega]
          exact hne
      · rintro ⟨j, hj, hne⟩
        cases j with
        | zero =>
            left
            rw [Nat.add_zero] at hne
            exact hne
        | succ j2 =>
            right
            refine ⟨j2, Nat.lt_of_succ_lt_succ hj, ?_⟩
            rw [show (i + 1) + j2 = i + (j2 + 1) by omega]
            exact hne

/-- C3 — `print_stats` keeps exactly the group rows with at least one
accumulated-column state different from that column's default value:
`lines` is the filter of the group dictionary by `rowKept` (group-key
columns take no part in the test), and `rowKept` holds iff some
accumulated column's slot differs from its default (value equality), so a
row is dropped iff every accumulated slot equals its column's default. -/
theorem c3_filter_default_rows {R : Type} (s : Statistics R) :
    s.lines = (s.groups.filter (fun kv => rowKept s.columns kv.2)).map
        (fun kv => kv.1 ++ kv.2)
    ∧ (∀ (value : Row) (cols : List (StatisticsColumn R)),
        (rowKept cols value = true
          ↔ ∃ j : Nat, ∃ h : j < cols.length,
              value.getD j junkVal ≠ (cols.get ⟨j, h⟩).default_value)
        ∧ (rowKept cols value = false
          ↔ ∀ (j : Nat) (h : j < cols.length),
              value.getD j junkVal = (cols.get ⟨j, h⟩).default_value)) := by
  constructor
  · rfl
  · intro value cols
    have htrue : rowKept cols value = true
        ↔ ∃ j : Nat, ∃ h : j < cols.length,
            value.getD j junkVal ≠ (cols.get ⟨j, h⟩).default_value := by
      unfold rowKept
      rw [rowKeptAux_iff value cols 0]
      constructor
      · rintro ⟨j, hj, hne⟩
        rw [Nat.zero_add] at hne
        exact ⟨j, hj, hne⟩
      · rintro ⟨j, hj, hne⟩
        refine ⟨j, hj, ?_⟩
        rw [Nat.zero_add]
        exact hne
    constructor
    · exact htrue
    · rw [← Bool.not_eq_true, htrue]
      push_neg
      constructor
      · intro h j hj
        exact h j hj
      · intro h j hj
        exact h j hj

/-- C9 — The record-processing step of `process_records` is local to the
record's own group: the stored state vector of every other group key is
unchanged by `gstep` (in the pure model, rows are copied by value —
`copy.deepcopy` — so no sharing between groups exists to begin with). -/
theorem c9_group_frame {R : Type} (gcols cols : List (StatisticsColumn R))
    (init : Row) (off : Nat) (G : List (GroupKey × Row)) (r : R)
    (k : GroupKey) (h : k ≠ gcols.map (fun c => c.get_value r)) :
    lookupRow (gstep gcols init cols off G r) k = lookupRow G k :=
  gstep_frame gcols cols init off G r h

theorem find_column_index_concat {R : Type} (s : Statistics R)
    (name2 : String) :
    s.find_column_index name2
      = (match (s.group_columns ++ s.columns).findIdx?
            (fun c => c.name == name2) with
         | Option.some i => Except.ok i
         | Option.none =>
             Except.error ("Unknown column name: " ++ name2)) := by
  unfold Statistics.find_column_index
  rw [List.findIdx?_append]
  cases hg : s.group_columns.findIdx? (fun c => c.name == name2) with
  | some i => rw [Option.or_some]
  | none =>
      rw [Option.none_or]
      cases hc : s.columns.findIdx? (fun c => c.name == name2) with
      | some i =>
          rw [Option.map_some']
          rw [Nat.add_comm]
      | none => rw [Option.map_none']

theorem sortedLines_resolved {R : Type} (s : Statistics R) (name2 : String)
    (i : Nat) (hname : name2 ≠ "")
    (hfind : s.find_column_index name2 = Except.ok i) :
    s.sortedLines (Option.some name2)
      = Except.ok (sortDesc (fun x =>
          ((s.group_columns ++ s.columns).getD i
            (baseColumn "" (fun _ => junkVal))).to_sortable
              (x.getD i junkVal)) s.lines) := by
  simp only [Statistics.sortedLines]
  rw [if_neg hname, hfind]

/-- C4 (amended) — With a non-empty sort name, `print_stats` resolves the
name to the first matching index of the concatenation group-key columns ++
accumulated columns (so group-key columns win, then registration order)
and sorts the surviving rows with a stable descending sort by that
column's `to_sortable` projection of the resolved slot: the sorted rows
are a permutation of the filtered rows, in weakly descending key order
(for scalar sort keys), and rows with equal sort keys keep their original
relative order; a distinct-count column's sortable projection is the set's
cardinality.  (The empty string, being falsy, skips sorting — see the
counterexample.) -/
theorem c4_sort_amended (R : Type) :
    (∀ (s : Statistics R) (name2 : String),
      s.find_column_index name2
        = (match (s.group_columns ++ s.columns).findIdx?
              (fun c => c.name == name2) with
           | Option.some i => Except.ok i
           | Option.none =>
               Except.error ("Unknown column name: " ++ name2)))
    ∧ (∀ (s : Statistics R) (name2 : String) (i : Nat), name2 ≠ "" →
        s.find_column_index name2 = Except.ok i →
        s.sortedLines (Option.some name2) = Except.ok (sortDesc (fun x =>
          ((s.group_columns ++ s.columns).getD i
            (baseColumn "" (fun _ => junkVal))).to_sortable
              (x.getD i junkVal)) s.lines))
    ∧ (∀ (key : Row → PyVal) (l : List Row), (sortDesc key l).Perm l)
    ∧ (∀ (key : Row → PyVal) (l : List Row),
        (∀ x ∈ l, isScalarB (key x) = true) →
        (sortDesc key l).Pairwise
          (fun u v2 => pyLtB (key u) (key v2) = false))
    ∧ (∀ (key : Row → PyVal) (l : List Row) (c : PyVal),
        (sortDesc key l).filter (fun x => decide (key x = c))
          = l.filter (fun x => decide (key x = c)))
    ∧ (∀ (name2 : String) (p : R → PyVal) (A : Finset Scalar),
        (StatisticsDistinctCountColumn name2 p).to_sortable (PyVal.vset A)
          = PyVal.scalar (Scalar.vint A.card)) :=
  ⟨fun s name2 => find_column_index_concat s name2,
   fun s name2 i hname hfind => sortedLines_resolved s name2 i hname hfind,
   fun key l => sortDesc_perm key l,
   fun key l hall => sortDesc_sorted key l hall,
   fun key l c => sortDesc_filter key l c,
   fun _ _ _ => rfl⟩

/-- C7 (amended) — Passing a non-empty `sort_by` name that matches no
group-key column and no accumulated column makes `print_stats` raise
`ValueError: Unknown column name: ...` instead of printing; the empty
string is falsy in `if sort_by:` and silently skips sorting (see the
counterexample). -/
theorem c7_unknown_sort_amended {R : Type} (s : Statistics R)
    (name2 : String) (hname : name2 ≠ "")
    (hunknown : ∀ c ∈ s.group_columns ++ s.columns, c.name ≠ name2) :
    s.print_stats (Option.some name2)
      = Except.error ("Unknown column name: " ++ name2) := by
  have hfind : s.find_column_index name2
      = Except.error ("Unknown column name: " ++ name2) := by
    rw [find_column_index_concat]
    have hnone : (s.group_columns ++ s.columns).findIdx?
        (fun c => c.name == name2) = Option.none := by
      rw [List.findIdx?_eq_none_iff]
      intro c hc
      simp
      exact hunknown c hc
    rw [hnone]
  have hsorted : s.sortedLines (Option.some name2)
      = Except.error ("Unknown column name: " ++ name2) := by
    simp only [Statistics.sortedLines]
    rw [if_neg hname, hfind]
  simp only [Statistics.print_stats]
  rw [hsorted]

theorem sortedLines_of_lines_nil {R : Type} (s : Statistics R)
    (hnil : s.lines = []) (sb : Option String) (l2 : List Row)
    (hok : s.sortedLines sb = Except.ok l2) : l2 = [] := by
  cases sb with
  | none =>
      simp only [Statistics.sortedLines] at hok
      rw [hnil] at hok
      cases hok
      rfl
  | some name2 =>
      simp only [Statistics.sortedLines] at hok
      by_cases hname : name2 = ""
      · rw [if_pos hname, hnil] at hok
        cases hok
        rfl
      · rw [if_neg hname] at hok
        cases hfind : s.find_column_index name2 with
        | error e => rw [hfind] at hok; cases hok
        | ok i =>
            rw [hfind] at hok
            simp at hok
            rw [hnil] at hok
            cases hok.symm
            rfl

theorem computeWidths_nil_lines {R : Type} (c : StatisticsColumn R)
    (cs : List (StatisticsColumn R)) (i : Nat) :
    computeWidths (c :: cs) i ([] : List Row)
      = Except.error "max() arg is an empty sequence" := rfl

/-- C10 (amended) — Provided at least one column (group-key or
accumulated) is registered, `print_stats` fails while computing the
display widths (`max()` over an empty list raises ValueError) whenever no
group row survives the default-value filter — in particular when there
are no groups at all — and conversely a successful `print_stats` on an
aggregator with at least one column means some row survived.  (With no
columns at all the width loop is empty and a header-only table is
printed — see the counterexample.) -/
theorem c10_empty_render_amended (R : Type) :
    (∀ (s : Statistics R) (sb : Option String) (l2 : List Row),
      s.group_columns ++ s.columns ≠ [] →
      s.sortedLines sb = Except.ok l2 → l2 = [] →
      s.print_stats sb = Except.error "max() arg is an empty sequence")
    ∧ (∀ s : Statistics R, s.lines = [] →
        s.sortedLines Option.none = Except.ok [])
    ∧ (∀ (s : Statistics R) (sb : Option String) (out : String),
        s.print_stats sb = Except.ok out →
        s.lines ≠ [] ∨ s.group_columns ++ s.columns = []) := by
  have hpart1 : ∀ (s : Statistics R) (sb : Option String) (l2 : List Row),
      s.group_columns ++ s.columns ≠ [] →
      s.sortedLines sb = Except.ok l2 → l2 = [] →
      s.print_stats sb = Except.error "max() arg is an empty sequence" := by
    intro s sb l2 hcols hok hnil
    simp only [Statistics.print_stats]
    rw [hok, hnil]
    cases hc : s.group_columns ++ s.columns with
    | nil => exact absurd hc hcols
    | cons c cs => rfl
  refine ⟨hpart1, ?_, ?_⟩
  · intro s hnil
    simp only [Statistics.sortedLines]
    rw [hnil]
  · intro s sb out hok
    by_cases hcols : s.group_columns ++ s.columns = []
    · exact Or.inr hcols
    · left
      intro hnil
      cases hok2 : s.sortedLines sb with
      | error e =>
          simp only [Statistics.print_stats] at hok
          rw [hok2] at hok
          cases hok
      | ok l2 =>
          have hl2 : l2 = [] := sortedLines_of_lines_nil s hnil sb l2 hok2
          have := hpart1 s sb l2 hcols hok2 hl2
          rw [this] at hok
          cases hok

/-- C8 (amended) — The engine performs no duplicate-name check:
`process_records` always registers the given columns by appending them
(it never raises), so a column whose name duplicates a group-key or
accumulated column is accepted, and name lookups (`_find_column_index`)
then resolve to the first match — group-key columns first, then earliest
registration — silently shadowing the later duplicate. -/
theorem c8_duplicate_amended {R : Type} (s : Statistics R)
    (records : List R) (cols : List (StatisticsColumn R)) :
    (s.process_records records cols).columns = s.columns ++ cols
    ∧ (s.process_records records cols).group_columns = s.group_columns
    ∧ (s.process_records records cols).init_values
        = s.init_values ++ cols.map (fun c => c.default_value) :=
  ⟨rfl, rfl, rfl⟩

theorem extend_nodup {G : List (GroupKey × Row)} (hnd : NoDupKeys G)
    (t : Row) : NoDupKeys (G.map (fun kv => (kv.1, kv.2 ++ t))) := by
  unfold NoDupKeys
  rw [List.pairwise_map]
  exact hnd.imp (fun h => h)

theorem extend_rowslen {G : List (GroupKey × Row)} {init : Row}
    (hrl : RowsLen G init) (t : Row) :
    RowsLen (G.map (fun kv => (kv.1, kv.2 ++ t))) (init ++ t) := by
  intro kv hkv
  rcases List.mem_map.mp hkv with ⟨kv0, hkv0, heq⟩
  rw [← heq]
  show (kv0.2 ++ t).length = (init ++ t).length
  rw [List.length_append, List.length_append, hrl kv0 hkv0]

/-- C5 (amended) — Processing any permutation of a record batch yields the
same aggregator state up to dictionary entry order: the two group
dictionaries are permutations of each other with identical per-key lookups
(so every group accumulates the same state), and the filtered `lines` and
any sorted row list are permutations as well — i.e., the same multiset of
rendered rows.  This holds whenever the pass's columns accumulate
record-order-insensitively (as count and distinct-count columns do); the
relative print order of rows whose sort keys tie is NOT arrival-order
independent (see the counterexample). -/
theorem c5_perm_amended {R : Type} (s : Statistics R)
    (recs1 recs2 : List R) (cols : List (StatisticsColumn R))
    (hperm : recs1.Perm recs2) (hnd : NoDupKeys s.groups)
    (hrows : ∀ kv ∈ s.groups, kv.2.length = s.init_values.length)
    (hcomm : ∀ c ∈ cols, ∀ (st : PyVal) (x y : R),
      c.accumulate (c.accumulate st (c.get_value x)) (c.get_value y)
        = c.accumulate (c.accumulate st (c.get_value y)) (c.get_value x)) :
    ((s.process_records recs1 cols).groups).Perm
        ((s.process_records recs2 cols).groups)
    ∧ (∀ k : GroupKey,
        lookupRow (s.process_records recs1 cols).groups k
          = lookupRow (s.process_records recs2 cols).groups k)
    ∧ ((s.process_records recs1 cols).lines).Perm
        ((s.process_records recs2 cols).lines)
    ∧ (∀ key : Row → PyVal,
        (sortDesc key (s.process_records recs1 cols).lines).Perm
          (sortDesc key (s.process_records recs2 cols).lines)) := by
  have hndb : NoDupKeys (s.groups.map (fun kv =>
      (kv.1, kv.2 ++ cols.map (fun c => c.default_value)))) :=
    extend_nodup hnd _
  have hrlb : RowsLen (s.groups.map (fun kv =>
      (kv.1, kv.2 ++ cols.map (fun c => c.default_value))))
      (s.init_values ++ cols.map (fun c => c.default_value)) :=
    extend_rowslen hrows _
  have hgperm : ((s.process_records recs1 cols).groups).Perm
      ((s.process_records recs2 cols).groups) :=
    foldl_gstep_perm hperm hcomm _ hndb hrlb
  have hnd1 : NoDupKeys (s.process_records recs1 cols).groups :=
    (foldl_gstep_nodup_rowslen recs1 _ hndb hrlb).1
  have hlperm : ((s.process_records recs1 cols).lines).Perm
      ((s.process_records recs2 cols).lines) := by
    show (((s.process_records recs1 cols).groups.filter
        (fun kv => rowKept (s.process_records recs1 cols).columns kv.2)).map
          (fun kv => kv.1 ++ kv.2)).Perm _
    have hcols : (s.process_records recs1 cols).columns
        = (s.process_records recs2 cols).columns := rfl
    exact (hgperm.filter _).map _
  refine ⟨hgperm, fun k => lookupRow_perm hnd1 hgperm k, hlperm, fun key => ?_⟩
  exact ((sortDesc_perm key _).trans hlperm).trans (sortDesc_perm key _).symm

theorem pyAdd_int_comm2 (st : PyVal) (a b : Int) :
    pyAdd (pyAdd st (PyVal.scalar (Scalar.vint a))) (PyVal.scalar (Scalar.vint b))
      = pyAdd (pyAdd st (PyVal.scalar (Scalar.vint b))) (PyVal.scalar (Scalar.vint a)) := by
  cases st with
  | scalar v =>
      cases v with
      | vnone => rfl
      | vint m =>
          show PyVal.scalar (Scalar.vint (m + a + b))
            = PyVal.scalar (Scalar.vint (m + b + a))
          rw [Int.add_right_comm]
      | vstr t => rfl
  | vset A => rfl

theorem count_acc_comm {R : Type} (name : String) (q : R → PyVal)
    (st : PyVal) (x y : R) :
    (StatisticsCountColumn name q).accumulate
        ((StatisticsCountColumn name q).accumulate st
          ((StatisticsCountColumn name q).get_value x))
        ((StatisticsCountColumn name q).get_value y)
      = (StatisticsCountColumn name q).accumulate
          ((StatisticsCountColumn name q).accumulate st
            ((StatisticsCountColumn name q).get_value y))
          ((StatisticsCountColumn name q).get_value x) := by
  show pyAdd (pyAdd st (if pyTruthy (q x) = true then PyVal.scalar (Scalar.vint 1)
        else PyVal.scalar (Scalar.vint 0)))
      (if pyTruthy (q y) = true then PyVal.scalar (Scalar.vint 1)
        else PyVal.scalar (Scalar.vint 0))
    = pyAdd (pyAdd st (if pyTruthy (q y) = true then PyVal.scalar (Scalar.vint 1)
        else PyVal.scalar (Scalar.vint 0)))
      (if pyTruthy (q x) = true then PyVal.scalar (Scalar.vint 1)
        else PyVal.scalar (Scalar.vint 0))
  by_cases hx : pyTruthy (q x) = true
  · by_cases hy : pyTruthy (q y) = true
    · rw [if_pos hx, if_pos hy]
    · rw [if_pos hx, if_neg hy]
      exact pyAdd_int_comm2 st 1 0
  · by_cases hy : pyTruthy (q y) = true
    · rw [if_neg hx, if_pos hy]
      exact pyAdd_int_comm2 st 0 1
    · rw [if_neg hx, if_neg hy]

/-- C4 (counterexample) — `print_stats` does NOT sort when `sort_by` is the
empty string, even though a column named `''` exists and resolves: Python's
`if sort_by:` treats `''` as falsy.  Here the `''` count column resolves to
index 1, yet the surviving rows come back in dictionary order with the
first row's sort key 0 strictly below the second row's 1 — not the
descending order the claim asserts. -/
theorem c4_empty_name_counterexample :
    ((Statistics.init [nameColumn]).process_records [rAliceNone, rBob]
        [StatisticsCountColumn "" trStamp, countColumnN]).sortedLines
        (Option.some "")
      = Except.ok
          [[PyVal.scalar (Scalar.vstr "Alice"), PyVal.scalar (Scalar.vint 0),
            PyVal.scalar (Scalar.vint 1)],
           [PyVal.scalar (Scalar.vstr "Bob"), PyVal.scalar (Scalar.vint 1),
            PyVal.scalar (Scalar.vint 1)]]
    ∧ ((Statistics.init [nameColumn]).process_records [rAliceNone, rBob]
        [StatisticsCountColumn "" trStamp, countColumnN]).find_column_index ""
      = Except.ok 1
    ∧ pyLtB (PyVal.scalar (Scalar.vint 0)) (PyVal.scalar (Scalar.vint 1))
      = true :=
  ⟨rfl, rfl, by decide⟩

/-- C5 (counterexample) — Two arrival orders of the same records print
different tables: with tied sort keys the stable sort keeps dictionary
(insertion) order, so the Alice and Bob rows swap. -/
theorem c5_perm_counterexample :
    ([rBob, rAlice] : List TestRecord).Perm [rAlice, rBob]
    ∧ ((Statistics.init [nameColumn]).process_records [rAlice, rBob]
        [countColumnN]).print_stats (Option.some "N")
      = Except.ok "Name  N \n===== = \nAlice 1 \nBob   1 \n"
    ∧ ((Statistics.init [nameColumn]).process_records [rBob, rAlice]
        [countColumnN]).print_stats (Option.some "N")
      = Except.ok "Name  N \n===== = \nBob   1 \nAlice 1 \n"
    ∧ ("Name  N \n===== = \nAlice 1 \nBob   1 \n" : String)
      ≠ "Name  N \n===== = \nBob   1 \nAlice 1 \n" :=
  ⟨by decide, rfl, rfl, by decide⟩

/-- C7 (counterexample) — The empty string matches no column of this
aggregator, yet `print_stats` succeeds instead of raising: `if sort_by:`
silently skips sorting for the falsy `''`. -/
theorem c7_empty_sort_counterexample :
    (∀ c ∈ ((Statistics.init [nameColumn]).process_records [rAlice]
          [countColumnN]).group_columns
        ++ ((Statistics.init [nameColumn]).process_records [rAlice]
          [countColumnN]).columns, c.name ≠ "")
    ∧ ((Statistics.init [nameColumn]).process_records [rAlice]
        [countColumnN]).print_stats (Option.some "")
      = Except.ok "Name  N \n===== = \nAlice 1 \n" :=
  ⟨by decide, rfl⟩

/-- C8 (counterexample) — Registering a count column named `Name` on an
aggregator whose group-key column is already named `Name` raises nothing:
the duplicate is appended, and `_find_column_index` resolves `Name` to the
group-key column at index 0, silently shadowing the new column. -/
theorem c8_duplicate_counterexample :
    ((Statistics.init [nameColumn]).process_records ([] : List TestRecord)
        [StatisticsCountColumn "Name" trTrue]).columns.map (fun c => c.name)
      = ["Name"]
    ∧ ((Statistics.init [nameColumn]).process_records ([] : List TestRecord)
        [StatisticsCountColumn "Name" trTrue]).group_columns.map
          (fun c => c.name)
      = ["Name"]
    ∧ ((Statistics.init [nameColumn]).process_records ([] : List TestRecord)
        [StatisticsCountColumn "Name" trTrue]).find_column_index "Name"
      = Except.ok 0 :=
  ⟨rfl, rfl, rfl⟩

/-- C10 (counterexample) — An aggregator with no columns and no groups
does not raise: `print_stats` prints a header-only (empty) table, because
the width loop runs zero times and never reaches `max([])`. -/
theorem c10_empty_render_counterexample :
    (Statistics.init ([] : List (StatisticsColumn TestRecord))).groups = []
    ∧ (Statistics.init
        ([] : List (StatisticsColumn TestRecord))).print_stats Option.none
      = Except.ok "\n\n" :=
  ⟨rfl, rfl⟩

theorem c2_distinct_count_witness :
    lookupRow ((Statistics.init [nameColumn]).process_records
        [rAlice, rAlice2, rAliceNone]
        [StatisticsDistinctCountColumn "Voted" trChangeIfStamp]).groups
        [PyVal.scalar (Scalar.vstr "Alice")]
      = Option.some [PyVal.vset {Scalar.vint 7}]
    ∧ (StatisticsDistinctCountColumn "Voted" trChangeIfStamp).to_sortable
        (PyVal.vset {Scalar.vint 7}) = PyVal.scalar (Scalar.vint 1)
    ∧ (StatisticsDistinctCountColumn "Voted" trChangeIfStamp).to_string
        (PyVal.vset {Scalar.vint 7}) = "1" := by
  have h := c2_distinct_count [nameColumn] "Voted" trChangeIfStamp
    [rAlice, rAlice2, rAliceNone] [PyVal.scalar (Scalar.vstr "Alice")]
    (Scalar.vint 7) (by decide) (by decide)
    ⟨rAlice, by decide, by decide⟩
  exact ⟨h.1, h.2.1, h.2.2.1⟩

theorem c3_filter_default_rows_witness :
    rowKept [countColumnN] [PyVal.scalar (Scalar.vint 5)] = true
    ∧ rowKept [countColumnN] [PyVal.scalar (Scalar.vint 0)] = false := by
  have h := (c3_filter_default_rows
    (Statistics.init ([] : List (StatisticsColumn TestRecord)))).2
  constructor
  · exact (h [PyVal.scalar (Scalar.vint 5)] [countColumnN]).1.mpr
      ⟨0, by decide, by decide⟩
  · exact (h [PyVal.scalar (Scalar.vint 0)] [countColumnN]).2.mpr
      (by decide)
  
theorem c4_sort_amended_witness :
    ((Statistics.init [nameColumn]).process_records [rAlice, rBob]
        [countColumnN]).find_column_index "N" = Except.ok 1
    ∧ ((Statistics.init [nameColumn]).process_records [rAlice, rBob]
        [countColumnN]).sortedLines (Option.some "N")
      = Except.ok
          [[PyVal.scalar (Scalar.vstr "Alice"), PyVal.scalar (Scalar.vint 1)],
           [PyVal.scalar (Scalar.vstr "Bob"), PyVal.scalar (Scalar.vint 1)]]
    ∧ (sortDesc (fun x : Row => x.getD 1 junkVal)
        [[PyVal.scalar (Scalar.vstr "Alice"), PyVal.scalar (Scalar.vint 1)],
         [PyVal.scalar (Scalar.vstr "Bob"), PyVal.scalar (Scalar.vint 3)]]).Pairwise
        (fun u v2 => pyLtB (u.getD 1 junkVal) (v2.getD 1 junkVal) = false) := by
  have h := c4_sort_amended TestRecord
  refine ⟨?_, ?_, ?_⟩
  · exact (h.1 ((Statistics.init [nameColumn]).process_records [rAlice, rBob]
      [countColumnN]) "N").trans rfl
  · exact (h.2.1 ((Statistics.init [nameColumn]).process_records [rAlice, rBob]
      [countColumnN]) "N" 1 (by decide) rfl).trans rfl
  · exact h.2.2.2.1 (fun x : Row => x.getD 1 junkVal)
      [[PyVal.scalar (Scalar.vstr "Alice"), PyVal.scalar (Scalar.vint 1)],
       [PyVal.scalar (Scalar.vstr "Bob"), PyVal.scalar (Scalar.vint 3)]]
      (by decide)

theorem c5_perm_amended_witness :
    (((Statistics.init [nameColumn]).process_records [rAlice, rBob]
        [countColumnN]).groups).Perm
      (((Statistics.init [nameColumn]).process_records [rBob, rAlice]
        [countColumnN]).groups)
    ∧ lookupRow ((Statistics.init [nameColumn]).process_records [rAlice, rBob]
          [countColumnN]).groups [PyVal.scalar (Scalar.vstr "Alice")]
        = lookupRow ((Statistics.init [nameColumn]).process_records
          [rBob, rAlice] [countColumnN]).groups
          [PyVal.scalar (Scalar.vstr "Alice")] := by
  have h := c5_perm_amended (Statistics.init [nameColumn]) [rAlice, rBob]
    [rBob, rAlice] [countColumnN] (by decide) List.Pairwise.nil
    (fun kv hkv => absurd hkv (List.not_mem_nil kv))
    (by
      intro c hc st x y
      rw [List.mem_singleton.mp hc]
      exact count_acc_comm "N" trTrue st x y)
  exact ⟨h.1, h.2.1 [PyVal.scalar (Scalar.vstr "Alice")]⟩

theorem c6_count_column_witness :
    lookupRow ((Statistics.init [nameColumn]).process_records
        [rAlice, rAliceNone] [StatisticsCountColumn "N" trStamp]).groups
        [PyVal.scalar (Scalar.vstr "Alice")]
      = Option.some [PyVal.scalar (Scalar.vint 1)]
    ∧ (StatisticsCountColumn "N" trStamp).to_string
        (PyVal.scalar (Scalar.vint 1)) = "1"
    ∧ rowKept [StatisticsCountColumn "N" trStamp]
        [PyVal.scalar (Scalar.vint 0)] = false := by
  have h := c6_count_column [nameColumn] "N" trStamp [rAlice, rAliceNone]
    [PyVal.scalar (Scalar.vstr "Alice")] ⟨rAlice, by decide, by decide⟩
  exact ⟨h.1.trans (by decide), h.2.1 1, h.2.2.2⟩

theorem c7_unknown_sort_amended_witness :
    ((Statistics.init [nameColumn]).process_records [rAlice]
        [countColumnN]).print_stats (Option.some "Zzz")
      = Except.error "Unknown column name: Zzz" :=
  c7_unknown_sort_amended ((Statistics.init [nameColumn]).process_records
    [rAlice] [countColumnN]) "Zzz" (by decide) (by decide)

theorem c9_group_frame_witness :
    lookupRow (gstep [nameColumn] [PyVal.scalar (Scalar.vint 0)]
        [countColumnN] 0
        [([PyVal.scalar (Scalar.vstr "Bob")], [PyVal.scalar (Scalar.vint 3)])]
        rAlice)
      [PyVal.scalar (Scalar.vstr "Bob")]
      = Option.some [PyVal.scalar (Scalar.vint 3)] :=
  (c9_group_frame [nameColumn] [countColumnN] [PyVal.scalar (Scalar.vint 0)] 0
    [([PyVal.scalar (Scalar.vstr "Bob")], [PyVal.scalar (Scalar.vint 3)])]
    rAlice [PyVal.scalar (Scalar.vstr "Bob")] (by decide)).trans rfl

theorem c10_empty_render_amended_witness :
    ((Statistics.init [nameColumn]).process_records ([] : List TestRecord)
        [countColumnN]).print_stats Option.none
      = Except.error "max() arg is an empty sequence" :=
  (c10_empty_render_amended TestRecord).1
    ((Statistics.init [nameColumn]).process_records ([] : List TestRecord)
      [countColumnN]) Option.none []
    (List.cons_ne_nil _ _) rfl rfl
